import Mathlib

/-!
Shallow embedding of the canb0t CAN-bus tooling (canrx.py, canrx_tool.py,
can_engine.py) and proofs about its frame parser, CSV log store, replay
timing, statistics tracker, capture controller and DBC catalog synthesizer.

Python floats are modelled as rationals, byte strings as lists of naturals,
and text as lists of characters.  Fallible operations return `Option`
(`none` models a raised exception or a rejected input).
-/

/-! ## Character classes (Python `re` ASCII semantics) -/

/-- Python `\d` on ASCII input: the characters `'0'`–`'9'`. -/
def isDigitChar (c : Char) : Bool := 48 ≤ c.toNat && c.toNat ≤ 57

/-- Python `[0-9A-Fa-f]`: a hexadecimal digit. -/
def isHexChar (c : Char) : Bool :=
  (48 ≤ c.toNat && c.toNat ≤ 57) || (65 ≤ c.toNat && c.toNat ≤ 70) ||
    (97 ≤ c.toNat && c.toNat ≤ 102)

/-- Python `\s` on ASCII input: space, tab, newline, carriage return,
vertical tab, form feed. -/
def isSpaceChar (c : Char) : Bool :=
  c.toNat = 32 || c.toNat = 9 || c.toNat = 10 || c.toNat = 13 ||
    c.toNat = 11 || c.toNat = 12

/-- Numeric value of one hexadecimal digit character. -/
def hexVal (c : Char) : ℕ :=
  if c.toNat ≤ 57 then c.toNat - 48
  else if c.toNat ≤ 70 then c.toNat - 55
  else c.toNat - 87

/-- Value of a big-endian string of hexadecimal digits, as `int(s, 16)`. -/
def hexToNat (l : List Char) : ℕ := l.foldl (fun a c => 16 * a + hexVal c) 0

/-- Value of a big-endian string of decimal digits, as `int(s)`. -/
def decToNat (l : List Char) : ℕ := l.foldl (fun a c => 10 * a + (c.toNat - 48)) 0

/-- The characters of a string literal. -/
def str (s : String) : List Char := s.data

/-! ## Frame model

`Frame` mirrors the `Frame` dataclass of canrx.py (and the frame dict of
canrx_tool.py): a timestamp in seconds, an identifier, a declared length
and the payload bytes. -/

structure Frame where
  ts : ℚ
  can_id : ℕ
  dlc : ℕ
  data : List ℕ
deriving DecidableEq

/-! ## Replay timing (canrx_tool.py `ReplayThread`, canrx.py `cmd_replay`)

Both engines walk the recorded timestamps in order keeping the previous
timestamp, and sleep before each emission.  We model one pass over the
record as the list of sleep durations, one per emitted frame. -/

/-- Rate stored by `ReplayThread.__init__`: `self.rate = max(rate, 0.0001)`. -/
def ReplayThread.clampedRate (rate : ℚ) : ℚ := max rate (1 / 10000)

/-- Sleep performed by `ReplayThread.run` between a previous timestamp `p`
and the next timestamp `t`: `time.sleep(max(0, (ts - prev_ts) / self.rate))`. -/
def toolSleep (r p t : ℚ) : ℚ := max 0 ((t - p) / ReplayThread.clampedRate r)

/-- Sleep durations of one `ReplayThread.run` pass, given the already
clamped rate; the first frame is emitted with no sleep (`prev_ts is None`). -/
def toolSleeps (r : ℚ) : Option ℚ → List ℚ → List ℚ
  | _, [] => []
  | none, t :: ts => 0 :: toolSleeps r (some t) ts
  | some p, t :: ts => toolSleep r p t :: toolSleeps r (some t) ts

/-- One pass of `ReplayThread.run` over a record with the given timestamps:
the list of sleep durations before each emission. -/
def replayThreadRun (rate : ℚ) (ts : List ℚ) : List ℚ :=
  toolSleeps rate none ts

/-- Sleep performed by `cmd_replay` (canrx.py) for one consecutive pair:
`delay = (frame.ts - last_ts) / args.rate; if delay > 0: time.sleep(delay)`.
The rate is used unclamped; `none` models the `ZeroDivisionError` Python
raises when `args.rate` is zero. -/
def cmdSleep (r p t : ℚ) : Option ℚ :=
  if r = 0 then none
  else some (if 0 < (t - p) / r then (t - p) / r else 0)

/-- Sleep durations of one `cmd_replay` pass; `none` models an uncaught
`ZeroDivisionError`. -/
def cmdSleeps (r : ℚ) : Option ℚ → List ℚ → Option (List ℚ)
  | _, [] => some []
  | none, t :: ts => (cmdSleeps r (some t) ts).map (fun l => 0 :: l)
  | some p, t :: ts =>
    match cmdSleep r p t with
    | none => none
    | some d => (cmdSleeps r (some t) ts).map (fun l => d :: l)

/-- One pass of the `cmd_replay` loop over a record with the given
timestamps. -/
def cmdReplayRun (rate : ℚ) (ts : List ℚ) : Option (List ℚ) :=
  cmdSleeps rate none ts

/-! ## Statistics tracker (canrx.py `Stats`, canrx_tool.py `IDStats`) -/

/-- Per-identifier entry of canrx.py `Stats.data`. -/
structure StatInfo where
  count : ℕ
  last : ℚ
  hz : ℚ
deriving DecidableEq

/-- The `Stats.data` dictionary: identifier to entry. -/
def StatsMap := ℕ → Option StatInfo

/-- The empty `Stats.data` dictionary. -/
def StatsMap.empty : StatsMap := fun _ => none

/-- canrx.py `Stats.update`: `setdefault` the entry (with `last` equal to the
incoming timestamp), increment the count, and only when the delta is
positive blend `1/dt` into the EMA (`0.8/0.2`, or take `1/dt` outright when
the stored EMA is still zero, per the `if info["hz"]` truthiness test);
finally store the timestamp. -/
def Stats.update (s : StatsMap) (cid : ℕ) (ts : ℚ) : StatsMap :=
  let info := (s cid).getD ⟨0, ts, 0⟩
  let info := { info with count := info.count + 1 }
  let dt := ts - info.last
  let info :=
    if 0 < dt then
      { info with hz := if info.hz ≠ 0 then info.hz * (8 / 10) + (1 / dt) * (2 / 10)
                        else 1 / dt }
    else info
  let info := { info with last := ts }
  fun j => if j = cid then some info else s j

/-- Fold a list of `(identifier, timestamp)` update calls into a `StatsMap`,
as the capture loop does frame by frame. -/
def Stats.run (calls : List (ℕ × ℚ)) : StatsMap :=
  calls.foldl (fun s c => Stats.update s c.1 c.2) StatsMap.empty

/-- Count stored for an identifier (`0` when the identifier is absent). -/
def StatsMap.countOf (s : StatsMap) (cid : ℕ) : ℕ := ((s cid).getD ⟨0, 0, 0⟩).count

/-- EMA frequency stored for an identifier (`0` when absent). -/
def StatsMap.hzOf (s : StatsMap) (cid : ℕ) : ℚ := ((s cid).getD ⟨0, 0, 0⟩).hz

/-- canrx_tool.py `IDStats` object: count, optional last timestamp, EMA. -/
structure IDStats where
  count : ℕ
  last_ts : Option ℚ
  hz : ℚ
deriving DecidableEq

/-- Fresh `IDStats()`. -/
def IDStats.init : IDStats := ⟨0, none, 0⟩

/-- canrx_tool.py `IDStats.update`: blend `1/delta` with weights `0.9/0.1`
only when a previous timestamp exists and the delta is positive; always
store the timestamp and increment the count. -/
def IDStats.update (s : IDStats) (ts : ℚ) : IDStats :=
  let hz :=
    match s.last_ts with
    | none => s.hz
    | some p => if 0 < ts - p then s.hz * (9 / 10) + (1 / (ts - p)) * (1 / 10) else s.hz
  ⟨s.count + 1, some ts, hz⟩

/-- Apply `IDStats.update` for every timestamp observed for one identifier. -/
def IDStats.run (tss : List ℚ) : IDStats := tss.foldl IDStats.update IDStats.init

/-! ## Number rendering (Python `str`, `%X`, `%02X` formatting) -/

/-- The character for one digit value below 16 (`0`–`9`, then `A`–`F`). -/
def digitChar (d : ℕ) : Char :=
  if d < 10 then Char.ofNat (48 + d) else Char.ofNat (55 + d)

/-- Decimal digits of `n` accumulated onto `acc`, most significant first.
The first argument is fuel (any value at least `n` is enough, since `n/10`
strictly decreases); structural recursion on it keeps the definition
kernel-reducible. -/
def natDecAux : ℕ → ℕ → List Char → List Char
  | 0, _, acc => acc
  | _ + 1, 0, acc => acc
  | fuel + 1, n + 1, acc =>
    natDecAux fuel ((n + 1) / 10) (digitChar ((n + 1) % 10) :: acc)

/-- Python `str(n)` for a natural number. -/
def natDecStr (n : ℕ) : List Char := if n = 0 then ['0'] else natDecAux n n []

/-- Hexadecimal digits of `n` accumulated onto `acc`, most significant
first; fuel as in `natDecAux`. -/
def natHexAux : ℕ → ℕ → List Char → List Char
  | 0, _, acc => acc
  | _ + 1, 0, acc => acc
  | fuel + 1, n + 1, acc =>
    natHexAux fuel ((n + 1) / 16) (digitChar ((n + 1) % 16) :: acc)

/-- Python `"%X" % n`: uppercase hexadecimal without prefix. -/
def natHexStr (n : ℕ) : List Char := if n = 0 then ['0'] else natHexAux n n []

/-- Python `str(i)` for an integer (possibly negative). -/
def intDecStr (i : ℤ) : List Char :=
  if i < 0 then '-' :: natDecStr i.natAbs else natDecStr i.toNat

/-- Python `"%02X" % b` for a byte value below 256: exactly two uppercase
hexadecimal digits. -/
def byteHex2 (b : ℕ) : List Char := [digitChar (b / 16), digitChar (b % 16)]

/-- Python `int(q)`: truncation of a rational toward zero. -/
def pyTrunc (q : ℚ) : ℤ := Int.tdiv q.num q.den

/-! ## CSV log store (canrx.py `CsvLogger`, canrx_tool.py `CSVLogger`)

A log file is modelled as the list of its data rows (each row without its
line terminator; the header row is implicit and accounted for in the byte
size).  The store state is the active file plus the already rotated-out
files, oldest first. -/

/-- Space-separated `"%02X"` rendering of a payload, as both loggers emit. -/
def dataHexStr : List ℕ → List Char
  | [] => []
  | [b] => byteHex2 b
  | b :: bs => byteHex2 b ++ ' ' :: dataHexStr bs

/-- One CSV record for a frame, shared by both loggers (canrx.py writes it
via `csv.writer`, canrx_tool.py via an f-string): integer milliseconds,
uppercase hex identifier, decimal length, space-separated hex payload. -/
def csvRowCore (f : Frame) : List Char :=
  intDecStr (pyTrunc (f.ts * 1000)) ++ ',' :: natHexStr f.can_id ++
    ',' :: natDecStr f.dlc ++ ',' :: dataHexStr f.data

/-- State of a CSV logger: rotated-out files (oldest first) and the rows of
the active base-path file. -/
structure CsvLoggerState where
  rotated : List (List (List Char))
  active : List (List Char)
deriving DecidableEq

/-- The rotation threshold tested by both loggers: `100 * 1024 * 1024`. -/
def rotateThreshold : ℕ := 100 * 1024 * 1024

/-- Byte size of the active file written by canrx.py `CsvLogger`:
33 bytes of header (`csv.writer` terminates rows with CRLF) plus each row
and its CRLF terminator. -/
def rxFileBytes (rows : List (List Char)) : ℕ :=
  33 + (rows.map (fun r => r.length + 2)).sum

/-- canrx.py `CsvLogger.log`: write the record, flush, and rotate when the
post-write size exceeds the threshold (close, rename the full file away,
reopen the base path with a fresh header). -/
def CsvLogger.log (st : CsvLoggerState) (f : Frame) : CsvLoggerState :=
  let act := st.active ++ [csvRowCore f]
  if rotateThreshold < rxFileBytes act then ⟨st.rotated ++ [act], []⟩
  else ⟨st.rotated, act⟩

/-- Byte size of the active file written by canrx_tool.py `CSVLogger`:
32 bytes of header (rows terminated with LF) plus each row and its LF. -/
def toolFileBytes (rows : List (List Char)) : ℕ :=
  32 + (rows.map (fun r => r.length + 1)).sum

/-- canrx_tool.py `CSVLogger.write`: rotate first when the size **before**
the write already exceeds the threshold, then write the record and flush. -/
def CSVLogger.write (st : CsvLoggerState) (f : Frame) : CsvLoggerState :=
  if rotateThreshold < toolFileBytes st.active then
    ⟨st.rotated ++ [st.active], [csvRowCore f]⟩
  else ⟨st.rotated, st.active ++ [csvRowCore f]⟩

/-- All data rows held by a logger state, in write order. -/
def CsvLoggerState.allRows (st : CsvLoggerState) : List (List Char) :=
  st.rotated.flatten ++ st.active

/-! ## Line parser (canrx_tool.py `SERIAL_RE`/`parse_serial_line`,
canrx.py `FRAME_RE`/`parse_line`)

The two regular expressions are embedded as deterministic matchers.  Every
quantified atom in them is followed by a character it can never match
(hex digit before comma, digits before whitespace, whitespace before hex
digit), so greedy maximal munch is exact and only the two explicit
alternations (`(?:DLC|Data)` and the optional `(?:DLC:\s*)?`) need the
backtracking treatment spelled out below.  `re.search` tries the pattern at
every start position, leftmost first. -/

/-- Match a literal string at the head of the input, returning the rest. -/
def matchLit : List Char → List Char → Option (List Char)
  | [], s => some s
  | _ :: _, [] => none
  | c :: cs, d :: ds => if c = d then matchLit cs ds else none

/-- Greedy `p+`: at least one character satisfying `p`, maximal run.
Returns the matched run and the rest. -/
def takeWhile1 (p : Char → Bool) (s : List Char) : Option (List Char × List Char) :=
  if s.takeWhile p = [] then none else some (s.takeWhile p, s.dropWhile p)

/-- `[0-9A-Fa-f]{2}`: exactly two hexadecimal digits. -/
def take2Hex : List Char → Option ((Char × Char) × List Char)
  | a :: b :: rest => if isHexChar a && isHexChar b then some ((a, b), rest) else none
  | _ => none

/-- One iteration of the starred group: `\s+` then `[0-9A-Fa-f]{2}`. -/
def spaceTok (s : List Char) : Option ((Char × Char) × List Char) := do
  let (_, s1) ← takeWhile1 isSpaceChar s
  take2Hex s1

/-- Greedy `(?:\s+[0-9A-Fa-f]{2})*`: repeatedly consume one-or-more spaces
followed by a byte token; stop (consuming nothing of the failed attempt)
when an iteration cannot complete.  Each successful iteration consumes at
least three characters, so any fuel at least the input length is enough;
structural recursion on the fuel keeps the matcher kernel-reducible. -/
def byteLoop : ℕ → List (Char × Char) → List Char → List (Char × Char) × List Char
  | 0, acc, s => (acc, s)
  | fuel + 1, acc, s =>
    match spaceTok s with
    | none => (acc, s)
    | some (t, s2) => byteLoop fuel (acc ++ [t]) s2

/-- `([0-9A-Fa-f]{2}(?:\s+[0-9A-Fa-f]{2})*)`: the captured byte tokens. -/
def byteGroup (s : List Char) : Option (List (Char × Char) × List Char) :=
  (take2Hex s).map (fun p => byteLoop s.length [p.1] p.2)

/-- Shared head of both patterns: `ID:\s*0x([0-9A-Fa-f]+)\s*,\s*`, returning
the captured identifier digits and the rest. -/
def matchIdHead (s : List Char) : Option (List Char × List Char) := do
  let s ← matchLit (str "ID:") s
  let s := s.dropWhile isSpaceChar
  let s ← matchLit (str "0x") s
  let (idc, s) ← takeWhile1 isHexChar s
  let s := s.dropWhile isSpaceChar
  let s ← matchLit (str ",") s
  pure (idc, s.dropWhile isSpaceChar)

/-- Shared tail of both patterns: `(\d+)\s+` followed by the byte-token
group, returning the captured length digits and byte tokens. -/
def matchCountAndBytes (s : List Char) :
    Option (List Char × List (Char × Char)) := do
  let (dlcc, s) ← takeWhile1 isDigitChar s
  let (_, s) ← takeWhile1 isSpaceChar s
  let (toks, _) ← byteGroup s
  pure (dlcc, toks)

/-- canrx_tool.py `SERIAL_RE` tried at the current position.  The
`(?:DLC|Data)` alternation is decided locally because the two branches
diverge at their second character. -/
def serialMatchAt (s : List Char) :
    Option (List Char × List Char × List (Char × Char)) := do
  let (idc, s) ← matchIdHead s
  let s ←
    match matchLit (str "DLC") s with
    | some s1 => some s1
    | none => matchLit (str "Data") s
  let s ← matchLit (str ":") s
  let (dlcc, toks) ← matchCountAndBytes (s.dropWhile isSpaceChar)
  pure (idc, dlcc, toks)

/-- canrx.py `FRAME_RE` tried at the current position.  For the optional
`(?:DLC:\s*)?`: when `DLC:` matches but no digits follow, Python backtracks
to not taking the group, and `(\d+)` then fails on the character `D`, so the
whole attempt fails — which is what returning `none` models. -/
def frameMatchAt (s : List Char) :
    Option (List Char × List Char × List (Char × Char)) := do
  let (idc, s) ← matchIdHead s
  let s ← matchLit (str "Data:") s
  let s := s.dropWhile isSpaceChar
  let s ←
    match matchLit (str "DLC:") s with
    | some s1 => some (s1.dropWhile isSpaceChar)
    | none => some s
  let (dlcc, toks) ← matchCountAndBytes s
  pure (idc, dlcc, toks)

/-- `re.search`: try the pattern at each start position, leftmost first. -/
def regexSearch (m : List Char → Option α) : List Char → Option α
  | [] => m []
  | c :: t =>
    match m (c :: t) with
    | some r => some r
    | none => regexSearch m t

/-- Numeric value of a two-hex-digit byte token. -/
def tokVal (t : Char × Char) : ℕ := 16 * hexVal t.1 + hexVal t.2

/-- canrx_tool.py `parse_serial_line`: search `SERIAL_RE`, convert the
captures, and reject the line when the token count differs from the
declared length. -/
def parse_serial_line (line : List Char) : Option (ℕ × ℕ × List ℕ) :=
  match regexSearch serialMatchAt line with
  | none => none
  | some (idc, dlcc, toks) =>
    if (toks.map tokVal).length ≠ decToNat dlcc then none
    else some (hexToNat idc, decToNat dlcc, toks.map tokVal)

/-- canrx.py `parse_line`: search `FRAME_RE` and convert the captures;
no count check is performed (the `ValueError` guard can never fire because
every captured token is two hexadecimal digits). -/
def parse_line (line : List Char) : Option (ℕ × ℕ × List ℕ) :=
  (regexSearch frameMatchAt line).map
    (fun r => (hexToNat r.1, decToNat r.2.1, r.2.2.map tokVal))

/-! ## Log loading (canrx.py `load_csv_frames`, can_engine.py
`CANEngine.parse_log`)

A file is the list of its lines, each without its terminator.  The rows the
writers produce contain no quoting, so the `csv` module behaves as a plain
split on commas. -/

/-- Split one CSV line at every comma (the fields our writers emit are
never quoted). -/
def splitOnComma : List Char → List (List Char)
  | [] => [[]]
  | c :: rest =>
    if c = ',' then [] :: splitOnComma rest
    else
      match splitOnComma rest with
      | f :: fs => (c :: f) :: fs
      | [] => [[c]]

/-- Python `str.split()` helper: accumulate the current token (reversed). -/
def splitWSAux : List Char → List Char → List (List Char)
  | cur, [] => if cur = [] then [] else [cur.reverse]
  | cur, c :: rest =>
    if isSpaceChar c then
      if cur = [] then splitWSAux [] rest else cur.reverse :: splitWSAux [] rest
    else splitWSAux (c :: cur) rest

/-- Python `str.split()` with no argument: split on whitespace runs,
discarding empty tokens. -/
def splitWS (l : List Char) : List (List Char) := splitWSAux [] l

/-- Python `int(s)` on a digit string (the embedding omits the surrounding
whitespace and underscores `int` also tolerates — the writers never emit
them). -/
def pyNatDec (l : List Char) : Option ℕ :=
  if l ≠ [] ∧ l.all isDigitChar then some (decToNat l) else none

/-- Python `int(s)` including a possible leading minus sign. -/
def pyIntDec : List Char → Option ℤ
  | [] => none
  | c :: rest =>
    if c = '-' then (pyNatDec rest).map (fun n => -(n : ℤ))
    else (pyNatDec (c :: rest)).map (fun n => (n : ℤ))

/-- The `0x`/`0X` stripping `int(s, 16)` performs before converting. -/
def pyHexCore : List Char → List Char
  | a :: b :: rest => if a = '0' ∧ (b = 'x' ∨ b = 'X') then rest else a :: b :: rest
  | l => l

/-- Python `int(s, 16)` on a non-negative hexadecimal string, accepting the
optional `0x`/`0X` prefix `int` tolerates with an explicit base. -/
def pyNatHex (l : List Char) : Option ℕ :=
  if pyHexCore l ≠ [] ∧ (pyHexCore l).all isHexChar then some (hexToNat (pyHexCore l))
  else none

/-- The header row both loggers write. -/
def stdHeader : List Char := str "timestamp_ms,id_hex,dlc,data_hex"

/-- One `csv.DictReader` row as read by `load_csv_frames`: look each field
up by the column name's position in the header, then convert.  Any failure
(missing column, bad integer, byte value not below 256 when `bytes()` is
built) raises in Python and is caught by the `except` around the row, so it
yields `none` here. -/
def loadRow (hdr : List (List Char)) (row : List Char) : Option Frame := do
  let cols := splitOnComma row
  let tsS ← (hdr.findIdx? (· == str "timestamp_ms")).bind (cols[·]?)
  let idS ← (hdr.findIdx? (· == str "id_hex")).bind (cols[·]?)
  let dlcS ← (hdr.findIdx? (· == str "dlc")).bind (cols[·]?)
  let dataS ← (hdr.findIdx? (· == str "data_hex")).bind (cols[·]?)
  let ms ← pyIntDec tsS
  let cid ← pyNatHex idS
  let dlc ← pyNatDec dlcS
  let data ← (splitWS dataS).mapM pyNatHex
  if data.all (fun b => decide (b < 256)) then
    some ⟨(ms : ℚ) / 1000, cid, dlc, data⟩
  else none

/-- canrx.py `load_csv_frames`: a `DictReader` over the file; every row
that converts cleanly yields a frame, every other row is skipped by the
per-row `try`/`except`. -/
def load_csv_frames (file : List (List Char)) : List Frame :=
  match file with
  | [] => []
  | hdr :: rows => rows.filterMap (loadRow (splitOnComma hdr))

/-- can_engine.py `CANFrame`: integer millisecond timestamp, identifier,
declared length and payload (plain ints, no byte-range check). -/
structure CANFrame where
  timestamp_ms : ℤ
  can_id : ℕ
  dlc : ℕ
  data : List ℕ
deriving DecidableEq

/-- can_engine.py `CANEngine.parse_log` row loop: skip empty rows and
header rows, convert every other row with **no** per-row exception
handling, so the first conversion failure aborts the whole load (`none`). -/
def parse_log_rows : List (List Char) → Option (List CANFrame)
  | [] => some []
  | line :: rest =>
    let row := if line = [] then [] else splitOnComma line
    if row = [] ∨ row[0]? = some (str "timestamp_ms") then parse_log_rows rest
    else do
      let r0 ← row[0]?
      let ms ← pyIntDec r0
      let r1 ← row[1]?
      let cid ← pyNatHex r1
      let r2 ← row[2]?
      let dlc ← pyNatDec r2
      let r3 ← row[3]?
      let data ← (splitWS r3).mapM pyNatHex
      let frames ← parse_log_rows rest
      pure (CANFrame.mk ms cid dlc data :: frames)

/-- can_engine.py `CANEngine.parse_log` over a whole file. -/
def CANEngine.parse_log (file : List (List Char)) : Option (List CANFrame) :=
  parse_log_rows file

/-! ## Capture controller processing step (canrx.py `cmd_serial`,
canrx_tool.py `SerialCapture.run`)

One iteration of the read loop applied to one incoming line.  Commands
(pause, resume, filter updates, log toggling) mutate the state between
iterations; the step below is the data path only, exactly the body guarded
by `if not paused` (canrx.py) / `if self.pause_event.is_set()`
(canrx_tool.py). -/

/-- Session state of canrx.py `cmd_serial`: pause flag, filter list,
optional logger and statistics. -/
structure SerialState where
  paused : Bool
  filters : List ℕ
  logger : Option CsvLoggerState
  stats : StatsMap

/-- One data-path iteration of canrx.py `cmd_serial`: when paused the line
is drained unprocessed; otherwise parse, filter, update statistics and
append to the log when logging is enabled. -/
def cmd_serial_step (st : SerialState) (line : List Char) (now : ℚ) : SerialState :=
  if st.paused then st
  else
    match parse_line line with
    | none => st
    | some (cid, dlc, data) =>
      if st.filters = [] ∨ cid ∈ st.filters then
        { st with
          stats := Stats.update st.stats cid now
          logger := st.logger.map (fun lg => CsvLogger.log lg ⟨now, cid, dlc, data⟩) }
      else st

/-- Session state of canrx_tool.py `SerialCapture`: pause event, filters,
per-identifier statistics dictionary, logger and the emitted frame queue. -/
structure ToolCaptureState where
  paused : Bool
  filters : List ℕ
  stats : ℕ → Option IDStats
  logger : CsvLoggerState
  queued : List Frame

/-- One iteration of canrx_tool.py `SerialCapture.run`: when the pause
event is set the thread sleeps without reading or processing; otherwise
parse, filter, update the per-identifier statistics, write the log and
queue the frame for display. -/
def SerialCapture.step (st : ToolCaptureState) (line : List Char) (now : ℚ) :
    ToolCaptureState :=
  if st.paused then st
  else
    match parse_serial_line line with
    | none => st
    | some (cid, dlc, data) =>
      if st.filters ≠ [] ∧ cid ∉ st.filters then st
      else
        let f : Frame := ⟨now, cid, dlc, data⟩
        { st with
          stats := fun j =>
            if j = cid then some (((st.stats cid).getD IDStats.init).update now)
            else st.stats j
          logger := CSVLogger.write st.logger f
          queued := st.queued ++ [f] }

/-! ## Catalog synthesizer (can_engine.py `CANEngine.build_dbc`)

`build_dbc` writes DBC text; the embedding captures the messages and
signals that text declares.  Scaling factors are rationals
(`0.25`, `100/255`, …). -/

/-- can_engine.py `PID_SIGNALS`: the static table of recognized parameter
identifiers, `pid -> (name, length_bits, factor, offset, unit)`. -/
def PID_SIGNALS (pid : ℕ) : Option (String × ℕ × ℚ × ℚ × String) :=
  if pid = 0x0C then some ("EngineRPM", 16, 1 / 4, 0, "rpm")
  else if pid = 0x0D then some ("VehicleSpeed", 8, 1, 0, "km/h")
  else if pid = 0x11 then some ("ThrottlePosition", 8, 100 / 255, 0, "%")
  else if pid = 0x05 then some ("CoolantTemp", 8, 1, -40, "°C")
  else none

/-- can_engine.py `MESSAGE_NAMES`: known names for specific identifiers. -/
def MESSAGE_NAMES (cid : ℕ) : Option String :=
  if cid = 0x5F1 then some "DOOR_UNLOCK_CMD"
  else if cid = 0x5FB then some "DOOR_LOCK_CMD"
  else none

/-- Zero-padded three-digit uppercase hex, Python `"%03X"`. -/
def hexPad3 (n : ℕ) : List Char :=
  List.replicate (3 - (natHexStr n).length) '0' ++ natHexStr n

/-- Message name chosen by `build_dbc`:
`MESSAGE_NAMES.get(can_id, f"MSG_{can_id:03X}")`. -/
def msgName (cid : ℕ) : String :=
  (MESSAGE_NAMES cid).getD ("MSG_" ++ String.mk (hexPad3 cid))

/-- One `SG_` line of the generated DBC: name, start bit, bit width, scale
factor, offset, declared range, unit, optional multiplexed-by value
(`m<pid>`), and whether the signal is the multiplexor switch (`M`). -/
structure Signal where
  name : String
  start : ℕ
  size : ℕ
  factor : ℚ
  off : ℚ
  vmin : ℚ
  vmax : ℚ
  unit : String
  mux : Option ℕ
  isMuxSwitch : Bool
deriving DecidableEq

/-- The fixed `SG_ Service` line emitted for diagnostic messages. -/
def serviceSignal : Signal := ⟨"Service", 0, 8, 1, 0, 0, 255, "", none, false⟩

/-- The fixed `SG_ PID M` multiplexor-switch line. -/
def pidSwitchSignal : Signal := ⟨"PID", 8, 8, 1, 0, 0, 255, "", none, true⟩

/-- The per-selector line: sized and scaled from `PID_SIGNALS` when the
selector is recognized, otherwise a raw 8-bit `PID_xx` signal; both are
multiplexed by the selector value. -/
def pidSignal (pid : ℕ) : Signal :=
  match PID_SIGNALS pid with
  | some (nm, size, factor, off, unit) =>
    ⟨nm, 16, size, factor, off, off, ((2 ^ size - 1 : ℕ) : ℚ) * factor + off,
      unit, some pid, false⟩
  | none =>
    ⟨"PID_" ++ String.mk (byteHex2 pid), 16, 8, 1, 0, 0, 255, "", some pid, false⟩

/-- The raw per-byte-offset line emitted for non-diagnostic messages. -/
def byteSignal (i : ℕ) : Signal :=
  ⟨"BYTE" ++ String.mk (natDecStr i), i * 8, 8, 1, 0, 0, 255, "", none, false⟩

/-- One `BO_` block of the generated DBC. -/
structure Message where
  name : String
  dlc : ℕ
  signals : List Signal
deriving DecidableEq

/-- The selector values collected by
`pids = {f.data[1] for f in msgs if len(f.data) >= 2 and f.data[0] == 0x41}`
(with multiplicity and in observation order; `build_dbc` sorts and
deduplicates them). -/
def candPids (msgs : List Frame) : List ℕ :=
  msgs.filterMap (fun f =>
    match f.data with
    | a :: b :: _ => if a = 0x41 then some b else none
    | _ => none)

/-- Python `sorted` over a set built from a list: ascending distinct
values. -/
def sortDedup (l : List ℕ) : List ℕ := List.insertionSort (· ≤ ·) l.dedup

/-- The message block `build_dbc` emits for one new identifier: length is
the maximum observed `dlc`; a diagnostic identifier (some frame with first
payload byte `0x41` and at least two bytes) gets the Service/PID pair plus
one multiplexed signal per distinct selector; anything else gets one raw
signal per byte offset. -/
def emitMessage (cid : ℕ) (msgs : List Frame) : Message :=
  let dlc := (msgs.map Frame.dlc).foldl max 0
  { name := msgName cid
    dlc := dlc
    signals :=
      if candPids msgs = [] then (List.range dlc).map byteSignal
      else serviceSignal :: pidSwitchSignal :: (sortDedup (candPids msgs)).map pidSignal }

/-- can_engine.py `CANEngine.build_dbc` as the list of message blocks the
written DBC text declares: group the frames by identifier, skip identifiers
already present in the output file (`existing_ids`), and emit the remaining
groups in ascending identifier order. -/
def build_dbc (frames : List Frame) (existing : List ℕ) : List (ℕ × Message) :=
  (sortDedup (frames.map Frame.can_id)).filterMap (fun cid =>
    if cid ∈ existing then none
    else some (cid, emitMessage cid (frames.filter (fun f => f.can_id == cid))))

/-! ## Theorems: replay timing -/

theorem clampedRate_pos (rate : ℚ) : 0 < ReplayThread.clampedRate rate :=
  lt_of_lt_of_le (by norm_num) (le_max_right rate (1 / 10000))

theorem toolSleeps_some_eq (r p : ℚ) (l : List ℚ) :
    toolSleeps r (some p) l =
      List.zipWith (fun a b => max 0 ((b - a) / ReplayThread.clampedRate r)) (p :: l) l := by
  induction l generalizing p with
  | nil => rfl
  | cons t ts ih => simp [toolSleeps, toolSleep, ih]

theorem toolSleeps_mem_nonneg (r : ℚ) (prev : Option ℚ) (l : List ℚ) :
    ∀ d ∈ toolSleeps r prev l, 0 ≤ d := by
  induction l generalizing prev with
  | nil => intro d hd; cases prev <;> simp [toolSleeps] at hd
  | cons t ts ih =>
    intro d hd
    cases prev with
    | none =>
      simp only [toolSleeps, List.mem_cons] at hd
      rcases hd with h | h
      · simp [h]
      · exact ih (some t) d h
    | some p =>
      simp only [toolSleeps, List.mem_cons] at hd
      rcases hd with h | h
      · simp [h, toolSleep]
      · exact ih (some t) d h

theorem cmdSleeps_mem_nonneg (r : ℚ) (prev : Option ℚ) (l : List ℚ)
    (out : List ℚ) (h : cmdSleeps r prev l = some out) : ∀ d ∈ out, 0 ≤ d := by
  induction l generalizing prev out with
  | nil =>
    cases prev <;>
      · simp only [cmdSleeps, Option.some_inj] at h
        subst h
        simp
  | cons t ts ih =>
    cases prev with
    | none =>
      simp only [cmdSleeps, Option.map_eq_some'] at h
      obtain ⟨l', hl', rfl⟩ := h
      intro d hd
      rcases List.mem_cons.mp hd with h | h
      · simp [h]
      · exact ih (some t) l' hl' d h
    | some p =>
      by_cases hr : r = 0
      · simp [cmdSleeps, cmdSleep, hr] at h
      · simp only [cmdSleeps, cmdSleep, if_neg hr, Option.map_eq_some'] at h
        obtain ⟨l', hl', rfl⟩ := h
        intro d hd
        rcases List.mem_cons.mp hd with h | h
        · subst h
          by_cases hpos : 0 < (t - p) / r <;> simp [hpos]
          linarith
        · exact ih (some t) l' hl' d h

/-- C2 counterexample: canrx.py `cmd_replay` divides by `args.rate` with no
clamping, so replaying a two-frame record at rate `0` hits a
`ZeroDivisionError` instead of the claimed clamped delay. -/
theorem cmd_replay_rate_zero_divides : cmdReplayRun 0 [0, 1 / 10] = none := by
  simp [cmdReplayRun, cmdSleeps, cmdSleep]

/-- C2: the canrx_tool.py replay engine emits the first frame immediately
and sleeps `max 0 ((ts i - ts (i-1)) / rate)` before each later frame, with
the rate clamped to the minimum positive value `1/10000`, so a zero rate
never divides by zero; on the spec's example (offsets 0, 100 ms, 300 ms at
rate 2) the sleeps are 0, 50 ms and 100 ms.  (canrx.py `cmd_replay` is the
unclamped exception recorded in the counterexample.) -/
theorem replay_rate_clamped (rate t : ℚ) (ts : List ℚ) :
    0 < ReplayThread.clampedRate rate ∧
    replayThreadRun rate [] = [] ∧
    replayThreadRun rate (t :: ts) =
      0 :: List.zipWith (fun a b => max 0 ((b - a) / ReplayThread.clampedRate rate))
        (t :: ts) ts ∧
    replayThreadRun 2 [0, 1 / 10, 3 / 10] = [0, 1 / 20, 1 / 10] := by
  refine ⟨clampedRate_pos rate, rfl, ?_, ?_⟩
  · simp [replayThreadRun, toolSleeps, toolSleeps_some_eq]
  · have h2 : ReplayThread.clampedRate 2 = 2 := by
      simp [ReplayThread.clampedRate]
      norm_num
    simp [replayThreadRun, toolSleeps, toolSleep, h2]
    norm_num

/-- C10: neither replay loop ever sleeps a negative duration: every sleep
of a `ReplayThread.run` pass and of an exception-free `cmd_replay` pass is
non-negative, and for a non-increasing consecutive pair (`t ≤ p`) both
engines sleep exactly `0` — `ReplayThread` via `max(0, delay)`, `cmd_replay`
via the `if delay > 0` guard (given a positive rate, as `cmd_replay` needs
to avoid the division error). -/
theorem replay_no_negative_sleep (r p t : ℚ) (ts : List ℚ)
    (hpt : t ≤ p) (hr : 0 < r) :
    (∀ d ∈ replayThreadRun r ts, 0 ≤ d) ∧
    toolSleep r p t = 0 ∧
    cmdSleep r p t = some 0 ∧
    (∀ out, cmdReplayRun r ts = some out → ∀ d ∈ out, 0 ≤ d) := by
  have hq : (t - p) / ReplayThread.clampedRate r ≤ 0 :=
    div_nonpos_of_nonpos_of_nonneg (sub_nonpos.mpr hpt) (clampedRate_pos r).le
  have hq2 : (t - p) / r ≤ 0 :=
    div_nonpos_of_nonpos_of_nonneg (sub_nonpos.mpr hpt) hr.le
  refine ⟨toolSleeps_mem_nonneg r none ts, ?_, ?_, ?_⟩
  · simp [toolSleep, max_eq_left hq]
  · simp [cmdSleep, ne_of_gt hr, not_lt.mpr hq2]
  · exact fun out h => cmdSleeps_mem_nonneg r none ts out h

/-- C10 witness at `r = 1`, `p = 2`, `t = 1`, record `[5, 3]`. -/
theorem replay_no_negative_sleep_witness :
    ((1 : ℚ) ≤ 2 ∧ (0 : ℚ) < 1) ∧
    ((∀ d ∈ replayThreadRun 1 [5, 3], 0 ≤ d) ∧
      toolSleep 1 2 1 = 0 ∧ cmdSleep 1 2 1 = some 0 ∧
      (∀ out, cmdReplayRun 1 [5, 3] = some out → ∀ d ∈ out, 0 ≤ d)) :=
  ⟨⟨by norm_num, by norm_num⟩,
    replay_no_negative_sleep 1 2 1 [5, 3] (by norm_num) (by norm_num)⟩

/-! ## Theorems: statistics tracker -/

theorem Stats.update_eq (s : StatsMap) (cid : ℕ) (ts : ℚ) :
    Stats.update s cid ts = fun j =>
      if j = cid then
        some ⟨((s cid).getD ⟨0, ts, 0⟩).count + 1, ts,
          if 0 < ts - ((s cid).getD ⟨0, ts, 0⟩).last then
            (if ((s cid).getD ⟨0, ts, 0⟩).hz ≠ 0 then
              ((s cid).getD ⟨0, ts, 0⟩).hz * (8 / 10) +
                (1 / (ts - ((s cid).getD ⟨0, ts, 0⟩).last)) * (2 / 10)
            else 1 / (ts - ((s cid).getD ⟨0, ts, 0⟩).last))
          else ((s cid).getD ⟨0, ts, 0⟩).hz⟩
      else s j := by
  funext j
  simp only [Stats.update]
  by_cases hj : j = cid
  · simp only [if_pos hj]
    congr 1
    split <;> rfl
  · simp only [if_neg hj]

theorem Stats.countOf_update (s : StatsMap) (cid : ℕ) (ts : ℚ) (j : ℕ) :
    StatsMap.countOf (Stats.update s cid ts) j =
      StatsMap.countOf s j + (if cid = j then 1 else 0) := by
  rw [Stats.update_eq]
  by_cases hj : j = cid
  · subst hj
    simp only [StatsMap.countOf, if_pos rfl, Option.getD_some]
    cases hsc : s j <;> simp [hsc]
  · have hj' : ¬cid = j := fun h => hj h.symm
    simp [StatsMap.countOf, hj, hj']

theorem Stats.countOf_foldl (calls : List (ℕ × ℚ)) (s : StatsMap) (cid : ℕ) :
    StatsMap.countOf (calls.foldl (fun s c => Stats.update s c.1 c.2) s) cid =
      StatsMap.countOf s cid + (calls.filter (fun c => c.1 == cid)).length := by
  induction calls generalizing s with
  | nil => simp
  | cons c rest ih =>
    simp only [List.foldl_cons, ih, Stats.countOf_update, List.filter_cons]
    by_cases hc : c.1 = cid
    · simp only [hc, beq_self_eq_true, if_pos, List.length_cons]
      omega
    · have : (c.1 == cid) = false := beq_eq_false_iff_ne.mpr hc
      simp [hc, this]

theorem Stats.hz_nonneg_update (s : StatsMap) (cid : ℕ) (ts : ℚ)
    (h : ∀ j, 0 ≤ StatsMap.hzOf s j) :
    ∀ j, 0 ≤ StatsMap.hzOf (Stats.update s cid ts) j := by
  intro j
  rw [Stats.update_eq]
  by_cases hj : j = cid
  · subst hj
    have hold : 0 ≤ ((s j).getD ⟨0, ts, 0⟩).hz := by
      cases hsc : s j with
      | none => simp
      | some v =>
        have hv := h j
        simp only [StatsMap.hzOf, hsc, Option.getD_some] at hv ⊢
        exact hv
    simp only [StatsMap.hzOf, eq_self_iff_true, if_true, Option.getD_some]
    split
    next hdt =>
      have h1 : (0 : ℚ) < 1 / (ts - ((s j).getD ⟨0, ts, 0⟩).last) := one_div_pos.mpr hdt
      split
      next hz0 =>
        have h8 : (0 : ℚ) ≤ 8 / 10 := by norm_num
        have h2 : (0 : ℚ) ≤ 2 / 10 := by norm_num
        exact add_nonneg (mul_nonneg hold h8) (mul_nonneg h1.le h2)
      next hz0 => exact h1.le
    next hdt => exact hold
  · simp only [StatsMap.hzOf, if_neg hj]
    exact h j

theorem Stats.hz_nonneg_foldl (calls : List (ℕ × ℚ)) (s : StatsMap)
    (h : ∀ j, 0 ≤ StatsMap.hzOf s j) :
    ∀ j, 0 ≤ StatsMap.hzOf (calls.foldl (fun s c => Stats.update s c.1 c.2) s) j := by
  induction calls generalizing s with
  | nil => exact h
  | cons c rest ih => exact ih _ (Stats.hz_nonneg_update s c.1 c.2 h)

theorem IDStats.count_foldl (tss : List ℚ) (s : IDStats) :
    (tss.foldl IDStats.update s).count = s.count + tss.length := by
  induction tss generalizing s with
  | nil => simp
  | cons t rest ih =>
    simp only [List.foldl_cons, ih, IDStats.update, List.length_cons]
    omega

theorem IDStats.update_unfold (s : IDStats) (ts : ℚ) :
    IDStats.update s ts =
      ⟨s.count + 1, some ts,
        match s.last_ts with
        | none => s.hz
        | some p =>
          if 0 < ts - p then s.hz * (9 / 10) + (1 / (ts - p)) * (1 / 10) else s.hz⟩ := rfl

theorem IDStats.hz_nonneg_fold (tss : List ℚ) (s : IDStats) (h : 0 ≤ s.hz) :
    0 ≤ (tss.foldl IDStats.update s).hz := by
  induction tss generalizing s with
  | nil => exact h
  | cons t rest ih =>
    refine ih (IDStats.update s t) ?_
    rw [IDStats.update_unfold]
    cases hl : s.last_ts with
    | none => exact h
    | some p =>
      simp only
      split
      next hdt =>
        have h1 : (0 : ℚ) < 1 / (t - p) := one_div_pos.mpr hdt
        have h9 : (0 : ℚ) ≤ 9 / 10 := by norm_num
        have h10 : (0 : ℚ) ≤ 1 / 10 := by norm_num
        exact add_nonneg (mul_nonneg h h9) (mul_nonneg h1.le h10)
      next hdt => exact h

/-- C6: for any sequence of update calls with non-decreasing timestamps,
each identifier's stored count equals the number of calls for it and the
EMA frequency is never negative; and on an update whose delta against the
stored last timestamp is non-positive (e.g. an equal consecutive
timestamp), both trackers leave the frequency untouched while still
incrementing the count and storing the timestamp — no division happens on
a non-positive delta. -/
theorem stats_tracker_spec (calls : List (ℕ × ℚ)) (cid : ℕ) (s : StatsMap)
    (e : StatInfo) (ts : ℚ) (tss : List ℚ) (st : IDStats) (p : ℚ)
    (hmono : (calls.map Prod.snd).Chain' (· ≤ ·))
    (hs : s cid = some e) (hdt : ts - e.last ≤ 0)
    (hst : st.last_ts = some p) (hp : ts - p ≤ 0) :
    StatsMap.countOf (Stats.run calls) cid =
      (calls.filter (fun c => c.1 == cid)).length ∧
    0 ≤ StatsMap.hzOf (Stats.run calls) cid ∧
    Stats.update s cid ts cid = some ⟨e.count + 1, ts, e.hz⟩ ∧
    (IDStats.run tss).count = tss.length ∧
    0 ≤ (IDStats.run tss).hz ∧
    IDStats.update st ts = ⟨st.count + 1, some ts, st.hz⟩ := by
  refine ⟨?_, ?_, ?_, ?_, ?_, ?_⟩
  · have := Stats.countOf_foldl calls StatsMap.empty cid
    simpa [Stats.run, StatsMap.countOf, StatsMap.empty] using this
  · refine Stats.hz_nonneg_foldl calls StatsMap.empty ?_ cid
    intro j
    simp [StatsMap.hzOf, StatsMap.empty]
  · rw [Stats.update_eq]
    simp only [eq_self_iff_true, if_true, hs, Option.getD_some]
    have hne : ¬(0 < ts - e.last) := not_lt.mpr hdt
    simp [hne]
  · simpa [IDStats.run, IDStats.init] using IDStats.count_foldl tss IDStats.init
  · exact IDStats.hz_nonneg_fold tss IDStats.init le_rfl
  · rw [IDStats.update_unfold, hst]
    have hne : ¬(0 < ts - p) := not_lt.mpr hp
    simp [hne]

/-- C6 witness: three calls (two for identifier 1) with non-decreasing
timestamps, a stored canrx.py entry with `last = 5` updated at the equal
timestamp `5`, and a canrx_tool.py tracker updated likewise. -/
theorem stats_tracker_spec_witness :
    (([(1, (0 : ℚ)), (1, 1), (2, 1)].map Prod.snd).Chain' (· ≤ ·) ∧
      (fun j => if j = 1 then some (StatInfo.mk 1 5 0) else none) 1 =
        some (StatInfo.mk 1 5 0) ∧
      (5 : ℚ) - 5 ≤ 0 ∧ (IDStats.mk 2 (some 5) 7).last_ts = some 5 ∧
      (5 : ℚ) - 5 ≤ 0) ∧
    (StatsMap.countOf (Stats.run [(1, (0 : ℚ)), (1, 1), (2, 1)]) 1 =
        ([(1, (0 : ℚ)), (1, 1), (2, 1)].filter (fun c => c.1 == 1)).length ∧
      0 ≤ StatsMap.hzOf (Stats.run [(1, (0 : ℚ)), (1, 1), (2, 1)]) 1 ∧
      Stats.update (fun j => if j = 1 then some (StatInfo.mk 1 5 0) else none) 1 5 1 =
        some (StatInfo.mk 2 5 0) ∧
      (IDStats.run [0, 1]).count = [(0 : ℚ), 1].length ∧
      0 ≤ (IDStats.run [(0 : ℚ), 1]).hz ∧
      IDStats.update (IDStats.mk 2 (some 5) 7) 5 = IDStats.mk 3 (some 5) 7) := by
  refine ⟨⟨by simp [List.chain'_cons], by simp, by norm_num, rfl, by norm_num⟩, ?_⟩
  exact stats_tracker_spec [(1, (0 : ℚ)), (1, 1), (2, 1)] 1
    (fun j => if j = 1 then some (StatInfo.mk 1 5 0) else none) (StatInfo.mk 1 5 0)
    5 [0, 1] (IDStats.mk 2 (some 5) 7) 5
    (by simp [List.chain'_cons]) (by simp) (by norm_num) rfl (by norm_num)

/-! ## Theorems: capture controller pause -/

/-- C9: while paused, a processing step changes nothing: canrx.py
`cmd_serial` drains the line without parsing, updating statistics or
logging, and canrx_tool.py `SerialCapture.run` sleeps without even
reading — in both, the whole session state (statistics map, log contents,
queue) is untouched by the step. -/
theorem paused_step_no_processing (st : SerialState) (st2 : ToolCaptureState)
    (line : List Char) (now : ℚ) (h1 : st.paused = true) (h2 : st2.paused = true) :
    cmd_serial_step st line now = st ∧ SerialCapture.step st2 line now = st2 := by
  constructor
  · simp [cmd_serial_step, h1]
  · simp [SerialCapture.step, h2]

/-- C9 witness: a paused session fed a well-formed line. -/
theorem paused_step_no_processing_witness :
    ((SerialState.mk true [] none StatsMap.empty).paused = true ∧
      (ToolCaptureState.mk true [] (fun _ => none) ⟨[], []⟩ []).paused = true) ∧
    (cmd_serial_step (SerialState.mk true [] none StatsMap.empty)
        (str "ID: 0x1, Data: 1 0A") 0 = SerialState.mk true [] none StatsMap.empty ∧
      SerialCapture.step (ToolCaptureState.mk true [] (fun _ => none) ⟨[], []⟩ [])
        (str "ID: 0x1, Data: 1 0A") 0 =
        ToolCaptureState.mk true [] (fun _ => none) ⟨[], []⟩ []) :=
  ⟨⟨rfl, rfl⟩,
    paused_step_no_processing (SerialState.mk true [] none StatsMap.empty)
      (ToolCaptureState.mk true [] (fun _ => none) ⟨[], []⟩ [])
      (str "ID: 0x1, Data: 1 0A") 0 rfl rfl⟩

/-! ## Theorems: catalog synthesizer -/

theorem build_dbc_ids_not_existing (frames : List Frame) (existing : List ℕ) :
    ∀ x ∈ (build_dbc frames existing).map Prod.fst, x ∉ existing := by
  intro x hx
  simp only [build_dbc, List.mem_map] at hx
  obtain ⟨pair, hpair, hfst⟩ := hx
  obtain ⟨a, _, hfa⟩ := List.mem_filterMap.mp hpair
  by_cases ha : a ∈ existing
  · simp [if_pos ha] at hfa
  · simp only [if_neg ha, Option.some_inj] at hfa
    rw [← hfa] at hfst
    simpa [← hfst] using ha

theorem build_dbc_ids_mem (frames : List Frame) (existing : List ℕ) (a : ℕ)
    (ha : a ∈ sortDedup (frames.map Frame.can_id)) (hne : a ∉ existing) :
    a ∈ (build_dbc frames existing).map Prod.fst := by
  simp only [build_dbc, List.mem_map]
  refine ⟨(a, emitMessage a (frames.filter (fun f => f.can_id == a))), ?_, rfl⟩
  exact List.mem_filterMap.mpr ⟨a, ha, by simp [if_neg hne]⟩

/-- C4: catalog synthesis is an idempotent merge — identifiers already in
the existing DBC are never re-emitted, and a second synthesis run whose
existing set is extended by the first run's result identifiers emits
nothing at all. -/
theorem build_dbc_idempotent (frames : List Frame) (existing : List ℕ) (cid : ℕ)
    (hc : cid ∈ existing) :
    build_dbc frames (existing ++ (build_dbc frames existing).map Prod.fst) = [] ∧
    cid ∉ (build_dbc frames existing).map Prod.fst := by
  constructor
  · rw [build_dbc, List.filterMap_eq_nil_iff]
    intro a ha
    by_cases hae : a ∈ existing
    · simp [List.mem_append.mpr (Or.inl hae)]
    · have : a ∈ (build_dbc frames existing).map Prod.fst :=
        build_dbc_ids_mem frames existing a ha hae
      simp [List.mem_append.mpr (Or.inr this)]
  · intro hmem
    exact build_dbc_ids_not_existing frames existing cid hmem hc

/-- C4 witness: one frame whose identifier is already known. -/
theorem build_dbc_idempotent_witness :
    5 ∈ [5] ∧
    (build_dbc [Frame.mk 0 5 1 [7]]
        ([5] ++ (build_dbc [Frame.mk 0 5 1 [7]] [5]).map Prod.fst) = [] ∧
      5 ∉ (build_dbc [Frame.mk 0 5 1 [7]] [5]).map Prod.fst) :=
  ⟨by simp, build_dbc_idempotent [Frame.mk 0 5 1 [7]] [5] 5 (by simp)⟩

/-- The detection `build_dbc` actually performs per frame:
`len(f.data) >= 2 and f.data[0] == 0x41` — the second byte is *not*
required to be a recognized parameter identifier. -/
def diagFrame (f : Frame) : Bool :=
  match f.data with
  | a :: _ :: _ => a == 0x41
  | _ => false

theorem candPids_aux_none_iff (f : Frame) :
    (match f.data with
      | a :: b :: _ => if a = 0x41 then some b else none
      | _ => none : Option ℕ) = none ↔ diagFrame f = false := by
  match hd : f.data with
  | [] => simp [diagFrame, hd]
  | [a] => simp [diagFrame, hd]
  | a :: b :: t =>
    by_cases ha : a = 0x41 <;> simp [diagFrame, hd, ha]

theorem candPids_nil_iff (msgs : List Frame) :
    candPids msgs = [] ↔ msgs.any diagFrame = false := by
  rw [candPids, List.filterMap_eq_nil_iff, List.any_eq_false]
  constructor
  · intro h f hf
    have hfd := (candPids_aux_none_iff f).mp (h f hf)
    simp [hfd]
  · intro h f hf
    have hfd := h f hf
    simp only [Bool.not_eq_true] at hfd
    exact (candPids_aux_none_iff f).mpr hfd

theorem diagFrame_iff (f : Frame) :
    diagFrame f = true ↔ ∃ b t, f.data = 0x41 :: b :: t := by
  match hd : f.data with
  | [] => simp [diagFrame, hd]
  | [a] => simp [diagFrame, hd]
  | a :: b :: t =>
    simp only [diagFrame, hd, beq_iff_eq, List.cons.injEq]
    constructor
    · intro ha
      exact ⟨b, t, ha, rfl, rfl⟩
    · rintro ⟨b', t', ha, rfl, rfl⟩
      exact ha

theorem mem_candPids_iff (msgs : List Frame) (b : ℕ) :
    b ∈ candPids msgs ↔ ∃ f ∈ msgs, ∃ t, f.data = 0x41 :: b :: t := by
  rw [candPids, List.mem_filterMap]
  constructor
  · rintro ⟨f, hf, hfb⟩
    match hd : f.data with
    | [] => simp [hd] at hfb
    | [a] => simp [hd] at hfb
    | a :: b' :: t =>
      simp only [hd] at hfb
      by_cases ha : a = 0x41
      · simp only [if_pos ha, Option.some_inj] at hfb
        exact ⟨f, hf, t, by rw [hd, ha, hfb]⟩
      · simp [if_neg ha] at hfb
  · rintro ⟨f, hf, t, hd⟩
    exact ⟨f, hf, by simp [hd]⟩

/-- C5 counterexample: a lone frame with payload `[0x41, 0xFF, ...]` whose
second byte `0xFF` is *not* in the recognized-parameter table is still
synthesized as a multiplexed diagnostic message (`Service`, `PID` switch,
and a multiplexed `PID_FF` selector signal) instead of the per-byte raw
signals the claim's "exactly when ... second payload byte contained in the
known table" condition would require. -/
theorem build_dbc_mux_without_known_pid :
    (build_dbc [Frame.mk 0 0x7E8 8 [0x41, 0xFF, 1, 2, 3, 4, 5, 6]] []).map
        (fun p => p.2.signals.map (fun s => (s.name, s.mux, s.isMuxSwitch))) =
      [[("Service", none, false), ("PID", none, true), ("PID_FF", some 0xFF, false)]] ∧
    PID_SIGNALS 0xFF = none := by
  constructor
  · decide
  · decide

/-- C5 (amended): an identifier is synthesized as a multiplexed diagnostic
message exactly when some frame for it has at least two payload bytes and
first byte `0x41` — whether or not the second byte is a recognized
parameter identifier.  In that case the signals are the fixed `Service`
signal, the fixed `PID` multiplexor switch, and one signal per distinct
observed selector value in ascending order (scaled from the static
`PID_SIGNALS` table, or the raw 8-bit `PID_xx` default for unrecognized
selectors); otherwise one raw unscaled 8-bit signal per byte offset of the
inferred length. -/
theorem build_dbc_mux_condition (msgs : List Frame) (cid : ℕ) :
    (msgs.any diagFrame = true ↔ ∃ f ∈ msgs, ∃ b t, f.data = 0x41 :: b :: t) ∧
    (emitMessage cid msgs).signals =
      (if msgs.any diagFrame then
        serviceSignal :: pidSwitchSignal :: (sortDedup (candPids msgs)).map pidSignal
      else (List.range ((msgs.map Frame.dlc).foldl max 0)).map byteSignal) ∧
    (∀ b, b ∈ sortDedup (candPids msgs) ↔ ∃ f ∈ msgs, ∃ t, f.data = 0x41 :: b :: t) := by
  refine ⟨?_, ?_, ?_⟩
  · rw [List.any_eq_true]
    constructor
    · rintro ⟨f, hf, hdf⟩
      obtain ⟨b, t, hd⟩ := (diagFrame_iff f).mp hdf
      exact ⟨f, hf, b, t, hd⟩
    · rintro ⟨f, hf, b, t, hd⟩
      exact ⟨f, hf, (diagFrame_iff f).mpr ⟨b, t, hd⟩⟩
  · rw [emitMessage]
    by_cases hc : candPids msgs = []
    · have := (candPids_nil_iff msgs).mp hc
      simp [hc, this]
    · have hany : msgs.any diagFrame = true := by
        by_contra hfalse
        simp only [Bool.not_eq_true] at hfalse
        exact hc ((candPids_nil_iff msgs).mpr hfalse)
      simp [hc, hany]
  · intro b
    have hperm : (sortDedup (candPids msgs)).Perm (candPids msgs).dedup :=
      List.perm_insertionSort _ _
    rw [hperm.mem_iff, List.mem_dedup]
    exact mem_candPids_iff msgs b

/-! ## Theorems: log store rotation -/

/-- C3 (amended): every append writes exactly the new record, preserving
all rows across rotation (no data loss).  `CsvLogger` (canrx.py) rotates
exactly when the **post-write** size exceeds 100 MiB, leaving a fresh
active file; `CSVLogger` (canrx_tool.py) instead tests the size **before**
writing, so it rotates on the first append after the file has exceeded the
bound, and the append whose write crosses the bound performs no rotation. -/
theorem csv_logger_rotation (st : CsvLoggerState) (f : Frame) :
    (CsvLogger.log st f).allRows = st.allRows ++ [csvRowCore f] ∧
    (CsvLogger.log st f).rotated.length = st.rotated.length +
      (if rotateThreshold < rxFileBytes (st.active ++ [csvRowCore f]) then 1 else 0) ∧
    (CsvLogger.log st f).active =
      (if rotateThreshold < rxFileBytes (st.active ++ [csvRowCore f]) then []
       else st.active ++ [csvRowCore f]) ∧
    (CSVLogger.write st f).allRows = st.allRows ++ [csvRowCore f] ∧
    (CSVLogger.write st f).rotated.length = st.rotated.length +
      (if rotateThreshold < toolFileBytes st.active then 1 else 0) := by
  refine ⟨?_, ?_, ?_, ?_, ?_⟩
  · rw [CsvLogger.log]
    split
    · simp [CsvLoggerState.allRows]
    · simp [CsvLoggerState.allRows]
  · rw [CsvLogger.log]
    split
    next h => simp [if_pos h]
    next h => simp [if_neg h]
  · rw [CsvLogger.log]
    split
    next h => simp [if_pos h]
    next h => simp [if_neg h]
  · rw [CSVLogger.write]
    split
    · simp [CsvLoggerState.allRows]
    · simp [CsvLoggerState.allRows]
  · rw [CSVLogger.write]
    split
    next h => simp [if_pos h]
    next h => simp [if_neg h]

/-- A 39-character row; with its LF terminator it occupies 40 bytes. -/
def padRow : List Char := List.replicate 39 '0'

/-- An active canrx_tool.py log file of 2621439 such rows:
`32 + 2621439 * 40 = 104857592` bytes, just below the 100 MiB bound. -/
def bigState : CsvLoggerState := ⟨[], List.replicate 2621439 padRow⟩

/-- A frame whose record is 31 characters (32 bytes with its LF). -/
def f0 : Frame := ⟨0, 0x123, 8, [0, 0, 0, 0, 0, 0, 0, 0]⟩

theorem pyTrunc_zero_mul : pyTrunc ((0 : ℚ) * 1000) = 0 := by
  norm_num [pyTrunc]

theorem csvRowCore_f0 : csvRowCore f0 = str "0,123,8,00 00 00 00 00 00 00 00" := by
  have h0 : pyTrunc (f0.ts * 1000) = 0 := pyTrunc_zero_mul
  rw [csvRowCore, h0]
  decide

theorem bigState_map_bytes :
    bigState.active.map (fun r => r.length + 1) = List.replicate 2621439 40 := by
  have h : bigState.active = List.replicate 2621439 padRow := rfl
  rw [h, List.map_replicate]
  simp only [padRow, List.length_replicate]

theorem sum_replicate_mul (n x : ℕ) : (List.replicate n x).sum = n * x := by
  rw [List.sum_replicate, smul_eq_mul]

theorem toolFileBytes_bigState : toolFileBytes bigState.active = 104857592 := by
  rw [toolFileBytes, bigState_map_bytes, sum_replicate_mul]

theorem toolFileBytes_append_one (l : List (List Char)) (r : List Char) :
    toolFileBytes (l ++ [r]) = toolFileBytes l + (r.length + 1) := by
  simp [toolFileBytes, List.map_append]
  omega

/-- C3 counterexample: on the canrx_tool.py logger, an append that pushes
the file size from just below to above 100 MiB performs **no** rotation —
the post-write size exceeds the bound yet the rotated-file list stays empty
and the whole oversized file remains active, contradicting the claim that
the store rotates on the append whose write crosses the bound. -/
theorem csv_logger_tool_defers_rotation :
    rotateThreshold < toolFileBytes (CSVLogger.write bigState f0).active ∧
    (CSVLogger.write bigState f0).rotated = [] ∧
    (CSVLogger.write bigState f0).active = bigState.active ++ [csvRowCore f0] := by
  have hpre : ¬(rotateThreshold < toolFileBytes bigState.active) := by
    rw [toolFileBytes_bigState, rotateThreshold]
    norm_num
  have hw : CSVLogger.write bigState f0 =
      ⟨bigState.rotated, bigState.active ++ [csvRowCore f0]⟩ := by
    rw [CSVLogger.write, if_neg hpre]
  have hlen : (csvRowCore f0).length = 31 := by rw [csvRowCore_f0]; decide
  refine ⟨?_, ?_, ?_⟩
  · rw [hw]
    show rotateThreshold < toolFileBytes (bigState.active ++ [csvRowCore f0])
    rw [toolFileBytes_append_one, toolFileBytes_bigState, hlen, rotateThreshold]
    norm_num
  · rw [hw]
    show bigState.rotated = []
    rfl
  · rw [hw]

/-! ## Theorems: log loading -/

/-- A log file holding its header, one well-formed row and one corrupt
trailing row. -/
def file8 : List (List Char) := [stdHeader, str "12,1A3,2,0A 0B", str "garbage"]

/-- C8 counterexample: `CANEngine.parse_log` (can_engine.py) has no per-row
exception handling, so a file with one well-formed row and one corrupt
trailing row aborts the whole load (`none`) — while canrx.py
`load_csv_frames` on the same file recovers exactly the well-formed row. -/
theorem parse_log_aborts_on_malformed :
    CANEngine.parse_log file8 = none ∧
    (load_csv_frames file8).map (fun f => (f.can_id, f.dlc, f.data)) =
      [(0x1A3, 2, [10, 11])] := by
  constructor
  · decide
  · decide

/-- C8 (amended): canrx.py `load_csv_frames` never aborts — removing a
malformed row does not change its result, and the loaded frames are exactly
those of the rows that convert cleanly.  (`CANEngine.parse_log` is the
exception recorded in the counterexample: it raises on the first malformed
row.) -/
theorem load_csv_frames_skips_malformed (rows1 rows2 : List (List Char))
    (bad : List Char) (hbad : loadRow (splitOnComma stdHeader) bad = none) :
    load_csv_frames (stdHeader :: rows1 ++ bad :: rows2) =
      load_csv_frames (stdHeader :: rows1 ++ rows2) ∧
    load_csv_frames (stdHeader :: rows1 ++ rows2) =
      (rows1 ++ rows2).filterMap (loadRow (splitOnComma stdHeader)) := by
  constructor
  · simp [load_csv_frames, List.filterMap_append, List.filterMap_cons, hbad]
  · rfl

/-- C8 witness: one well-formed row around a corrupt one. -/
theorem load_csv_frames_skips_malformed_witness :
    loadRow (splitOnComma stdHeader) (str "garbage") = none ∧
    (load_csv_frames (stdHeader :: [str "12,1A3,2,0A 0B"] ++ str "garbage" :: []) =
        load_csv_frames (stdHeader :: [str "12,1A3,2,0A 0B"] ++ []) ∧
      load_csv_frames (stdHeader :: [str "12,1A3,2,0A 0B"] ++ []) =
        ([str "12,1A3,2,0A 0B"] ++ []).filterMap (loadRow (splitOnComma stdHeader))) :=
  ⟨by decide,
    load_csv_frames_skips_malformed [str "12,1A3,2,0A 0B"] [] (str "garbage") (by decide)⟩

/-! ## Theorems: round trip through the CSV log -/

/-- The digit characters the renderers produce: `0`–`9` and `A`–`F`. -/
def isUpperHexChar (c : Char) : Bool :=
  (48 ≤ c.toNat && c.toNat ≤ 57) || (65 ≤ c.toNat && c.toNat ≤ 70)

theorem digitChar_upperHex (d : ℕ) (h : d < 16) :
    isUpperHexChar (digitChar d) = true := by
  interval_cases d <;> decide

theorem hexVal_digitChar (d : ℕ) (h : d < 16) : hexVal (digitChar d) = d := by
  interval_cases d <;> decide

theorem digitChar_isDigit (d : ℕ) (h : d < 10) : isDigitChar (digitChar d) = true := by
  interval_cases d <;> decide

theorem digitChar_dec_val (d : ℕ) (h : d < 10) : (digitChar d).toNat - 48 = d := by
  interval_cases d <;> decide

theorem char_ne_of_toNat_ne {c d : Char} (h : c.toNat ≠ d.toNat) : c ≠ d :=
  fun hc => h (by rw [hc])

theorem upperHex_facts (c : Char) (h : isUpperHexChar c = true) :
    isHexChar c = true ∧ ¬c = ',' ∧ isSpaceChar c = false ∧
      ¬c = 'x' ∧ ¬c = 'X' ∧ ¬c = '-' := by
  simp only [isUpperHexChar, Bool.or_eq_true, Bool.and_eq_true, decide_eq_true_eq] at h
  refine ⟨?_, ?_, ?_, ?_, ?_, ?_⟩
  · simp only [isHexChar, Bool.or_eq_true, Bool.and_eq_true, decide_eq_true_eq]
    omega
  · exact char_ne_of_toNat_ne (by show c.toNat ≠ 44; omega)
  · simp only [isSpaceChar, Bool.or_eq_false_iff, decide_eq_false_iff_not]
    omega
  · exact char_ne_of_toNat_ne (by show c.toNat ≠ 120; omega)
  · exact char_ne_of_toNat_ne (by show c.toNat ≠ 88; omega)
  · exact char_ne_of_toNat_ne (by show c.toNat ≠ 45; omega)

theorem digit_upperHex (c : Char) (h : isDigitChar c = true) :
    isUpperHexChar c = true := by
  simp only [isDigitChar, Bool.and_eq_true, decide_eq_true_eq] at h
  simp only [isUpperHexChar, Bool.or_eq_true, Bool.and_eq_true, decide_eq_true_eq]
  omega

theorem natDecAux_fuel : ∀ (n f1 f2 : ℕ) (acc : List Char), n ≤ f1 → n ≤ f2 →
    natDecAux f1 n acc = natDecAux f2 n acc := by
  intro n
  induction n using Nat.strong_induction_on with
  | _ n ih =>
    intro f1 f2 acc h1 h2
    match n, f1, f2, h1, h2 with
    | 0, 0, 0, _, _ => rfl
    | 0, 0, _ + 1, _, _ => rfl
    | 0, _ + 1, 0, _, _ => rfl
    | 0, _ + 1, _ + 1, _, _ => rfl
    | m + 1, a + 1, b + 1, h1, h2 =>
      show natDecAux a ((m + 1) / 10) _ = natDecAux b ((m + 1) / 10) _
      have hd : (m + 1) / 10 < m + 1 := Nat.div_lt_self (Nat.succ_pos m) (by omega)
      exact ih ((m + 1) / 10) hd a b _ (by omega) (by omega)

theorem natDecAux_append : ∀ (n : ℕ) (acc : List Char),
    natDecAux n n acc = natDecAux n n [] ++ acc := by
  intro n
  induction n using Nat.strong_induction_on with
  | _ n ih =>
    intro acc
    match n with
    | 0 => rfl
    | m + 1 =>
      have hd : (m + 1) / 10 < m + 1 := Nat.div_lt_self (Nat.succ_pos m) (by omega)
      show natDecAux m ((m + 1) / 10) (digitChar ((m + 1) % 10) :: acc)
          = natDecAux m ((m + 1) / 10) [digitChar ((m + 1) % 10)] ++ acc
      rw [natDecAux_fuel ((m + 1) / 10) m ((m + 1) / 10) _ (by omega) le_rfl,
        natDecAux_fuel ((m + 1) / 10) m ((m + 1) / 10) [_] (by omega) le_rfl,
        ih ((m + 1) / 10) hd (digitChar ((m + 1) % 10) :: acc),
        ih ((m + 1) / 10) hd [digitChar ((m + 1) % 10)]]
      simp

theorem decToNat_append_singleton (l : List Char) (c : Char) :
    decToNat (l ++ [c]) = 10 * decToNat l + (c.toNat - 48) := by
  simp [decToNat, List.foldl_append]

theorem decToNat_natDecAux : ∀ n : ℕ, decToNat (natDecAux n n []) = n := by
  intro n
  induction n using Nat.strong_induction_on with
  | _ n ih =>
    match n with
    | 0 => rfl
    | m + 1 =>
      have hd : (m + 1) / 10 < m + 1 := Nat.div_lt_self (Nat.succ_pos m) (by omega)
      have hstep : natDecAux (m + 1) (m + 1) []
          = natDecAux ((m + 1) / 10) ((m + 1) / 10) [] ++ [digitChar ((m + 1) % 10)] := by
        show natDecAux m ((m + 1) / 10) [digitChar ((m + 1) % 10)] = _
        rw [natDecAux_fuel ((m + 1) / 10) m ((m + 1) / 10) _ (by omega) le_rfl,
          natDecAux_append ((m + 1) / 10)]
      rw [hstep, decToNat_append_singleton, ih ((m + 1) / 10) hd,
        digitChar_dec_val ((m + 1) % 10) (Nat.mod_lt _ (by omega))]
      exact Nat.div_add_mod (m + 1) 10

theorem natDecAux_digits : ∀ n : ℕ, ∀ c ∈ natDecAux n n [], isDigitChar c = true := by
  intro n
  induction n using Nat.strong_induction_on with
  | _ n ih =>
    match n with
    | 0 => intro c hc; simp [natDecAux] at hc
    | m + 1 =>
      have hd : (m + 1) / 10 < m + 1 := Nat.div_lt_self (Nat.succ_pos m) (by omega)
      have hstep : natDecAux (m + 1) (m + 1) []
          = natDecAux ((m + 1) / 10) ((m + 1) / 10) [] ++ [digitChar ((m + 1) % 10)] := by
        show natDecAux m ((m + 1) / 10) [digitChar ((m + 1) % 10)] = _
        rw [natDecAux_fuel ((m + 1) / 10) m ((m + 1) / 10) _ (by omega) le_rfl,
          natDecAux_append ((m + 1) / 10)]
      rw [hstep]
      intro c hc
      rcases List.mem_append.mp hc with h | h
      · exact ih ((m + 1) / 10) hd c h
      · rw [List.mem_singleton.mp h]
        exact digitChar_isDigit _ (Nat.mod_lt _ (by omega))

theorem natDecStr_digits (n : ℕ) : ∀ c ∈ natDecStr n, isDigitChar c = true := by
  rw [natDecStr]
  split
  · intro c hc
    rw [List.mem_singleton.mp hc]
    decide
  · exact natDecAux_digits n

theorem decToNat_natDecStr (n : ℕ) : decToNat (natDecStr n) = n := by
  rw [natDecStr]
  split
  next h => rw [h]; decide
  next h => exact decToNat_natDecAux n

theorem natDecStr_ne_nil (n : ℕ) : natDecStr n ≠ [] := by
  rw [natDecStr]
  split
  · simp
  next h =>
    intro hc
    have := decToNat_natDecAux n
    rw [hc] at this
    exact h (by rw [← this]; rfl)

theorem pyNatDec_natDecStr (n : ℕ) : pyNatDec (natDecStr n) = some n := by
  rw [pyNatDec,
    if_pos ⟨natDecStr_ne_nil n, List.all_eq_true.mpr (natDecStr_digits n)⟩,
    decToNat_natDecStr]

theorem natHexAux_fuel : ∀ (n f1 f2 : ℕ) (acc : List Char), n ≤ f1 → n ≤ f2 →
    natHexAux f1 n acc = natHexAux f2 n acc := by
  intro n
  induction n using Nat.strong_induction_on with
  | _ n ih =>
    intro f1 f2 acc h1 h2
    match n, f1, f2, h1, h2 with
    | 0, 0, 0, _, _ => rfl
    | 0, 0, _ + 1, _, _ => rfl
    | 0, _ + 1, 0, _, _ => rfl
    | 0, _ + 1, _ + 1, _, _ => rfl
    | m + 1, a + 1, b + 1, h1, h2 =>
      show natHexAux a ((m + 1) / 16) _ = natHexAux b ((m + 1) / 16) _
      have hd : (m + 1) / 16 < m + 1 := Nat.div_lt_self (Nat.succ_pos m) (by omega)
      exact ih ((m + 1) / 16) hd a b _ (by omega) (by omega)

theorem natHexAux_append : ∀ (n : ℕ) (acc : List Char),
    natHexAux n n acc = natHexAux n n [] ++ acc := by
  intro n
  induction n using Nat.strong_induction_on with
  | _ n ih =>
    intro acc
    match n with
    | 0 => rfl
    | m + 1 =>
      have hd : (m + 1) / 16 < m + 1 := Nat.div_lt_self (Nat.succ_pos m) (by omega)
      show natHexAux m ((m + 1) / 16) (digitChar ((m + 1) % 16) :: acc)
          = natHexAux m ((m + 1) / 16) [digitChar ((m + 1) % 16)] ++ acc
      rw [natHexAux_fuel ((m + 1) / 16) m ((m + 1) / 16) _ (by omega) le_rfl,
        natHexAux_fuel ((m + 1) / 16) m ((m + 1) / 16) [_] (by omega) le_rfl,
        ih ((m + 1) / 16) hd (digitChar ((m + 1) % 16) :: acc),
        ih ((m + 1) / 16) hd [digitChar ((m + 1) % 16)]]
      simp

theorem hexToNat_append_singleton (l : List Char) (c : Char) :
    hexToNat (l ++ [c]) = 16 * hexToNat l + hexVal c := by
  simp [hexToNat, List.foldl_append]

theorem hexToNat_natHexAux : ∀ n : ℕ, hexToNat (natHexAux n n []) = n := by
  intro n
  induction n using Nat.strong_induction_on with
  | _ n ih =>
    match n with
    | 0 => rfl
    | m + 1 =>
      have hd : (m + 1) / 16 < m + 1 := Nat.div_lt_self (Nat.succ_pos m) (by omega)
      have hstep : natHexAux (m + 1) (m + 1) []
          = natHexAux ((m + 1) / 16) ((m + 1) / 16) [] ++ [digitChar ((m + 1) % 16)] := by
        show natHexAux m ((m + 1) / 16) [digitChar ((m + 1) % 16)] = _
        rw [natHexAux_fuel ((m + 1) / 16) m ((m + 1) / 16) _ (by omega) le_rfl,
          natHexAux_append ((m + 1) / 16)]
      rw [hstep, hexToNat_append_singleton, ih ((m + 1) / 16) hd,
        hexVal_digitChar ((m + 1) % 16) (Nat.mod_lt _ (by omega))]
      exact Nat.div_add_mod (m + 1) 16

theorem natHexAux_upperHex : ∀ n : ℕ, ∀ c ∈ natHexAux n n [], isUpperHexChar c = true := by
  intro n
  induction n using Nat.strong_induction_on with
  | _ n ih =>
    match n with
    | 0 => intro c hc; simp [natHexAux] at hc
    | m + 1 =>
      have hd : (m + 1) / 16 < m + 1 := Nat.div_lt_self (Nat.succ_pos m) (by omega)
      have hstep : natHexAux (m + 1) (m + 1) []
          = natHexAux ((m + 1) / 16) ((m + 1) / 16) [] ++ [digitChar ((m + 1) % 16)] := by
        show natHexAux m ((m + 1) / 16) [digitChar ((m + 1) % 16)] = _
        rw [natHexAux_fuel ((m + 1) / 16) m ((m + 1) / 16) _ (by omega) le_rfl,
          natHexAux_append ((m + 1) / 16)]
      rw [hstep]
      intro c hc
      rcases List.mem_append.mp hc with h | h
      · exact ih ((m + 1) / 16) hd c h
      · rw [List.mem_singleton.mp h]
        exact digitChar_upperHex _ (Nat.mod_lt _ (by omega))

theorem natHexStr_upperHex (n : ℕ) : ∀ c ∈ natHexStr n, isUpperHexChar c = true := by
  rw [natHexStr]
  split
  · intro c hc
    rw [List.mem_singleton.mp hc]
    decide
  · exact natHexAux_upperHex n

theorem hexToNat_natHexStr (n : ℕ) : hexToNat (natHexStr n) = n := by
  rw [natHexStr]
  split
  next h => rw [h]; decide
  next h => exact hexToNat_natHexAux n

theorem natHexStr_ne_nil (n : ℕ) : natHexStr n ≠ [] := by
  rw [natHexStr]
  split
  · simp
  next h =>
    intro hc
    have := hexToNat_natHexAux n
    rw [hc] at this
    exact h (by rw [← this]; rfl)

theorem pyNatHex_of_upperHex (l : List Char) (hne : l ≠ [])
    (hh : ∀ c ∈ l, isUpperHexChar c = true) : pyNatHex l = some (hexToNat l) := by
  have hhex : ∀ c ∈ l, isHexChar c = true :=
    fun c hc => (upperHex_facts c (hh c hc)).1
  have hcore : pyHexCore l = l := by
    cases l with
    | nil => rfl
    | cons a t =>
      cases t with
      | nil => rfl
      | cons b rest =>
        have hb := upperHex_facts b (hh b (by simp))
        show (if a = '0' ∧ (b = 'x' ∨ b = 'X') then rest else a :: b :: rest)
            = a :: b :: rest
        rw [if_neg]
        rintro ⟨_, hx | hX⟩
        · exact hb.2.2.2.1 hx
        · exact hb.2.2.2.2.1 hX
  rw [pyNatHex, hcore, if_pos ⟨hne, List.all_eq_true.mpr hhex⟩]

theorem pyNatHex_natHexStr (n : ℕ) : pyNatHex (natHexStr n) = some n := by
  rw [pyNatHex_of_upperHex (natHexStr n) (natHexStr_ne_nil n) (natHexStr_upperHex n),
    hexToNat_natHexStr]

theorem pyIntDec_intDecStr (i : ℤ) : pyIntDec (intDecStr i) = some i := by
  rw [intDecStr]
  split
  next hneg =>
    show pyIntDec ('-' :: natDecStr i.natAbs) = some i
    rw [pyIntDec, if_pos rfl, pyNatDec_natDecStr]
    show some (-(i.natAbs : ℤ)) = some i
    congr 1
    omega
  next hpos =>
    have hd : ∀ c ∈ natDecStr i.toNat, isDigitChar c = true := natDecStr_digits _
    cases hl : natDecStr i.toNat with
    | nil => exact absurd hl (natDecStr_ne_nil _)
    | cons c rest =>
      have hc : isDigitChar c = true := hd c (by rw [hl]; exact List.mem_cons_self c rest)
      have hcm : ¬c = '-' := by
        simp only [isDigitChar, Bool.and_eq_true, decide_eq_true_eq] at hc
        exact char_ne_of_toNat_ne (by show c.toNat ≠ 45; omega)
      rw [pyIntDec, if_neg hcm, ← hl, pyNatDec_natDecStr]
      show some ((i.toNat : ℤ)) = some i
      congr 1
      omega

theorem byteHex2_upperHex (b : ℕ) (h : b < 256) :
    ∀ c ∈ byteHex2 b, isUpperHexChar c = true := by
  intro c hc
  rw [byteHex2] at hc
  rcases List.mem_cons.mp hc with h1 | h1
  · rw [h1]; exact digitChar_upperHex _ (Nat.div_lt_of_lt_mul (by omega))
  · rw [List.mem_singleton.mp h1]
    exact digitChar_upperHex _ (Nat.mod_lt _ (by omega))

theorem pyNatHex_byteHex2 (b : ℕ) (h : b < 256) : pyNatHex (byteHex2 b) = some b := by
  rw [pyNatHex_of_upperHex (byteHex2 b) (by rw [byteHex2]; simp) (byteHex2_upperHex b h)]
  rw [byteHex2]
  show some (hexToNat [digitChar (b / 16), digitChar (b % 16)]) = some b
  have h1 : hexToNat [digitChar (b / 16), digitChar (b % 16)]
      = 16 * hexVal (digitChar (b / 16)) + hexVal (digitChar (b % 16)) := by
    simp [hexToNat, List.foldl]
  rw [h1, hexVal_digitChar _ (Nat.div_lt_of_lt_mul (by omega)),
    hexVal_digitChar _ (Nat.mod_lt _ (by omega))]
  congr 1
  exact Nat.div_add_mod b 16

theorem splitWS_dataHex (data : List ℕ) (h : ∀ b ∈ data, b < 256) :
    splitWS (dataHexStr data) = data.map byteHex2 := by
  induction data with
  | nil => rfl
  | cons b bs ih =>
    have hb := h b (by simp)
    have hs1 : isSpaceChar (digitChar (b / 16)) = false :=
      (upperHex_facts _ (digitChar_upperHex _ (Nat.div_lt_of_lt_mul (by omega)))).2.2.1
    have hs2 : isSpaceChar (digitChar (b % 16)) = false :=
      (upperHex_facts _ (digitChar_upperHex _ (Nat.mod_lt _ (by omega)))).2.2.1
    cases bs with
    | nil =>
      show splitWSAux [] [digitChar (b / 16), digitChar (b % 16)]
          = [byteHex2 b]
      simp [splitWSAux, hs1, hs2, byteHex2]
    | cons b2 bs2 =>
      have ih2 := ih (fun x hx => h x (by simp [hx]))
      show splitWSAux []
          (digitChar (b / 16) :: digitChar (b % 16) :: ' ' :: dataHexStr (b2 :: bs2))
          = byteHex2 b :: (b2 :: bs2).map byteHex2
      rw [← ih2]
      have hsp : isSpaceChar ' ' = true := by decide
      simp [splitWSAux, hs1, hs2, hsp, byteHex2, splitWS]

theorem mapM_pyNatHex (data : List ℕ) (h : ∀ b ∈ data, b < 256) :
    (data.map byteHex2).mapM pyNatHex = some data := by
  induction data with
  | nil => rfl
  | cons b bs ih =>
    rw [List.map_cons, List.mapM_cons, pyNatHex_byteHex2 b (h b (by simp)),
      ih (fun x hx => h x (by simp [hx]))]
    rfl

theorem splitOnComma_nocomma (a : List Char) (ha : ∀ c ∈ a, ¬c = ',') :
    splitOnComma a = [a] := by
  induction a with
  | nil => rfl
  | cons c t ih =>
    have h1 : ¬c = ',' := ha c (by simp)
    show (if c = ',' then [] :: splitOnComma t
          else match splitOnComma t with
            | f :: fs => (c :: f) :: fs
            | [] => [[c]]) = [c :: t]
    rw [if_neg h1, ih (fun x hx => ha x (by simp [hx]))]

theorem splitOnComma_append (a rest : List Char) (ha : ∀ c ∈ a, ¬c = ',') :
    splitOnComma (a ++ ',' :: rest) = a :: splitOnComma rest := by
  induction a with
  | nil =>
    show (if ',' = ',' then [] :: splitOnComma rest
          else match splitOnComma rest with
            | f :: fs => (',' :: f) :: fs
            | [] => [[',']]) = [] :: splitOnComma rest
    rw [if_pos rfl]
  | cons c t ih =>
    have h1 : ¬c = ',' := ha c (by simp)
    show (if c = ',' then [] :: splitOnComma (t ++ ',' :: rest)
          else match splitOnComma (t ++ ',' :: rest) with
            | f :: fs => (c :: f) :: fs
            | [] => [[c]]) = (c :: t) :: splitOnComma rest
    rw [if_neg h1, ih (fun x hx => ha x (by simp [hx]))]

theorem digit_nocomma (c : Char) (h : isDigitChar c = true) : ¬c = ',' := by
  simp only [isDigitChar, Bool.and_eq_true, decide_eq_true_eq] at h
  exact char_ne_of_toNat_ne (by show c.toNat ≠ 44; omega)

theorem intDecStr_nocomma (i : ℤ) : ∀ c ∈ intDecStr i, ¬c = ',' := by
  rw [intDecStr]
  split
  · intro c hc
    rcases List.mem_cons.mp hc with h1 | h1
    · rw [h1]; decide
    · exact digit_nocomma c (natDecStr_digits _ c h1)
  · intro c hc
    exact digit_nocomma c (natDecStr_digits _ c hc)

theorem natHexStr_nocomma (n : ℕ) : ∀ c ∈ natHexStr n, ¬c = ',' :=
  fun c hc => (upperHex_facts c (natHexStr_upperHex n c hc)).2.1

theorem natDecStr_nocomma (n : ℕ) : ∀ c ∈ natDecStr n, ¬c = ',' :=
  fun c hc => digit_nocomma c (natDecStr_digits n c hc)

theorem dataHexStr_nocomma (data : List ℕ) (h : ∀ b ∈ data, b < 256) :
    ∀ c ∈ dataHexStr data, ¬c = ',' := by
  induction data with
  | nil => intro c hc; simp [dataHexStr] at hc
  | cons b bs ih =>
    have hb := h b (by simp)
    have h1 : ∀ c ∈ byteHex2 b, ¬c = ',' :=
      fun c hc => (upperHex_facts c (byteHex2_upperHex b hb c hc)).2.1
    cases bs with
    | nil => exact h1
    | cons b2 bs2 =>
      intro c hc
      show ¬c = ','
      have hshape : dataHexStr (b :: b2 :: bs2)
          = byteHex2 b ++ ' ' :: dataHexStr (b2 :: bs2) := rfl
      rw [hshape] at hc
      rcases List.mem_append.mp hc with h2 | h2
      · exact h1 c h2
      · rcases List.mem_cons.mp h2 with h3 | h3
        · rw [h3]; decide
        · exact ih (fun x hx => h x (by simp [hx])) c h3

theorem splitOnComma_csvRowCore (f : Frame) (hb : ∀ b ∈ f.data, b < 256) :
    splitOnComma (csvRowCore f) =
      [intDecStr (pyTrunc (f.ts * 1000)), natHexStr f.can_id, natDecStr f.dlc,
        dataHexStr f.data] := by
  rw [csvRowCore]
  simp only [List.cons_append, List.append_assoc]
  rw [splitOnComma_append _ _ (intDecStr_nocomma _),
    splitOnComma_append _ _ (natHexStr_nocomma _),
    splitOnComma_append _ _ (natDecStr_nocomma _),
    splitOnComma_nocomma _ (dataHexStr_nocomma _ hb)]

theorem loadRow_csvRowCore (f : Frame) (hb : ∀ b ∈ f.data, b < 256) :
    loadRow (splitOnComma stdHeader) (csvRowCore f) =
      some (Frame.mk ((pyTrunc (f.ts * 1000) : ℚ) / 1000) f.can_id f.dlc f.data) := by
  have hidx0 : (splitOnComma stdHeader).findIdx? (· == str "timestamp_ms") = some 0 := by
    decide
  have hidx1 : (splitOnComma stdHeader).findIdx? (· == str "id_hex") = some 1 := by decide
  have hidx2 : (splitOnComma stdHeader).findIdx? (· == str "dlc") = some 2 := by decide
  have hidx3 : (splitOnComma stdHeader).findIdx? (· == str "data_hex") = some 3 := by
    decide
  have hall : f.data.all (fun b => decide (b < 256)) = true := by
    rw [List.all_eq_true]
    intro b hbm
    exact decide_eq_true (hb b hbm)
  simp only [loadRow, splitOnComma_csvRowCore f hb, hidx0, hidx1, hidx2, hidx3,
    Option.bind_eq_bind, Option.some_bind, List.getElem?_cons_zero,
    List.getElem?_cons_succ, pyIntDec_intDecStr, pyNatHex_natHexStr,
    pyNatDec_natDecStr, splitWS_dataHex f.data hb, mapM_pyNatHex f.data hb,
    hall, if_true]

/-- C7: the CSV log round-trips — writing any frame sequence with the
shared record renderer and loading it back with `load_csv_frames`
reproduces every frame's identifier, length and payload bytes exactly, and
each timestamp comes back as its truncated integer-millisecond value
divided by 1000. -/
theorem csv_round_trip (fs : List Frame) (h : ∀ f ∈ fs, ∀ b ∈ f.data, b < 256) :
    load_csv_frames (stdHeader :: fs.map csvRowCore) =
      fs.map (fun f =>
        Frame.mk ((pyTrunc (f.ts * 1000) : ℚ) / 1000) f.can_id f.dlc f.data) := by
  show (fs.map csvRowCore).filterMap (loadRow (splitOnComma stdHeader)) = _
  induction fs with
  | nil => rfl
  | cons f fs ih =>
    rw [List.map_cons, List.filterMap_cons, loadRow_csvRowCore f (h f (by simp)),
      List.map_cons, ← ih (fun g hg => h g (by simp [hg]))]

/-- C7 witness: one frame with a two-byte payload. -/
theorem csv_round_trip_witness :
    (∀ f ∈ [Frame.mk 1 0x631 2 [170, 187]], ∀ b ∈ f.data, b < 256) ∧
    load_csv_frames (stdHeader :: [Frame.mk 1 0x631 2 [170, 187]].map csvRowCore) =
      [Frame.mk 1 0x631 2 [170, 187]].map
        (fun f =>
          Frame.mk ((pyTrunc (f.ts * 1000) : ℚ) / 1000) f.can_id f.dlc f.data) :=
  ⟨by decide, csv_round_trip [Frame.mk 1 0x631 2 [170, 187]] (by decide)⟩

/-! ## Theorems: line parser -/

/-- Separator-led rendering of byte tokens: one space before each token. -/
def renderSep : List (Char × Char) → List Char
  | [] => []
  | t :: ts => ' ' :: t.1 :: t.2 :: renderSep ts

/-- Space-separated rendering of byte tokens. -/
def renderToks : List (Char × Char) → List Char
  | [] => []
  | t :: ts => t.1 :: t.2 :: renderSep ts

/-- The canonical adapter line of the spec's scenario
(`ID: 0x631, Data: 8 40 05 30 FF 00 40 00 00`): a hexadecimal identifier, a
declared decimal length and space-separated two-digit byte tokens. -/
def mkLine (idc : List Char) (L : ℕ) (toks : List (Char × Char)) : List Char :=
  'I' :: 'D' :: ':' :: ' ' :: '0' :: 'x' ::
    (idc ++ ',' :: ' ' :: 'D' :: 'a' :: 't' :: 'a' :: ':' :: ' ' ::
      (natDecStr L ++ ' ' :: renderToks toks))

theorem matchLit_cons (c : Char) (cs s : List Char) :
    matchLit (c :: cs) (c :: s) = matchLit cs s := by
  simp [matchLit]

theorem matchLit_cons_ne {c d : Char} (h : ¬c = d) (cs s : List Char) :
    matchLit (c :: cs) (d :: s) = none := by
  simp [matchLit, h]

theorem takeWhile_all_append (p : Char → Bool) (l : List Char) (c : Char)
    (r : List Char) (hl : ∀ x ∈ l, p x = true) (hc : p c = false) :
    (l ++ c :: r).takeWhile p = l ∧ (l ++ c :: r).dropWhile p = c :: r := by
  induction l with
  | nil => simp [List.takeWhile_cons, List.dropWhile_cons, hc]
  | cons a t ih =>
    have ha : p a = true := hl a (by simp)
    have iht := ih (fun x hx => hl x (by simp [hx]))
    simp [List.takeWhile_cons, List.dropWhile_cons, ha, iht.1, iht.2]

theorem takeWhile1_exact (p : Char → Bool) (l : List Char) (c : Char)
    (r : List Char) (hl : ∀ x ∈ l, p x = true) (hne : l ≠ []) (hc : p c = false) :
    takeWhile1 p (l ++ c :: r) = some (l, c :: r) := by
  have h := takeWhile_all_append p l c r hl hc
  rw [takeWhile1, h.1, h.2, if_neg hne]

theorem hex_not_space (c : Char) (h : isHexChar c = true) : isSpaceChar c = false := by
  simp only [isHexChar, Bool.or_eq_true, Bool.and_eq_true, decide_eq_true_eq] at h
  simp only [isSpaceChar, Bool.or_eq_false_iff, decide_eq_false_iff_not]
  omega

theorem digit_not_space (c : Char) (h : isDigitChar c = true) : isSpaceChar c = false := by
  simp only [isDigitChar, Bool.and_eq_true, decide_eq_true_eq] at h
  simp only [isSpaceChar, Bool.or_eq_false_iff, decide_eq_false_iff_not]
  omega

theorem digit_ne_D (c : Char) (h : isDigitChar c = true) : ¬c = 'D' := by
  simp only [isDigitChar, Bool.and_eq_true, decide_eq_true_eq] at h
  exact char_ne_of_toNat_ne (by show c.toNat ≠ 68; omega)

theorem renderSep_length (toks : List (Char × Char)) :
    (renderSep toks).length = 3 * toks.length := by
  induction toks with
  | nil => rfl
  | cons t ts ih => simp [renderSep, ih]; omega

theorem byteLoop_renderSep (toks : List (Char × Char))
    (hth : ∀ t ∈ toks, isHexChar t.1 = true ∧ isHexChar t.2 = true) :
    ∀ (fuel : ℕ) (acc : List (Char × Char)), toks.length ≤ fuel →
      byteLoop fuel acc (renderSep toks) = (acc ++ toks, []) := by
  induction toks with
  | nil =>
    intro fuel acc _
    cases fuel with
    | zero => simp [byteLoop, renderSep]
    | succ g => simp [byteLoop, renderSep, spaceTok, takeWhile1]
  | cons t ts ih =>
    intro fuel acc hf
    match fuel, hf with
    | g + 1, hf =>
      have h1 := hth t (by simp)
      have hns : isSpaceChar t.1 = false := hex_not_space t.1 h1.1
      have hsp : spaceTok (renderSep (t :: ts)) = some ((t.1, t.2), renderSep ts) := by
        have htw : takeWhile1 isSpaceChar (' ' :: t.1 :: t.2 :: renderSep ts)
            = some ([' '], t.1 :: t.2 :: renderSep ts) := by
          have := takeWhile1_exact isSpaceChar [' '] t.1 (t.2 :: renderSep ts)
            (by intro x hx; rw [List.mem_singleton.mp hx]; decide) (by simp) hns
          simpa using this
        rw [renderSep]
        simp only [spaceTok, Option.bind_eq_bind, htw, Option.some_bind]
        simp [take2Hex, h1.1, h1.2]
      rw [renderSep] at hsp ⊢
      rw [byteLoop, hsp]
      have hrec := ih (fun x hx => hth x (by simp [hx])) g (acc ++ [(t.1, t.2)])
        (by simp at hf; omega)
      show byteLoop g (acc ++ [(t.1, t.2)]) (renderSep ts) = (acc ++ t :: ts, [])
      rw [hrec]
      simp

theorem byteGroup_renderToks (toks : List (Char × Char)) (hne : toks ≠ [])
    (hth : ∀ t ∈ toks, isHexChar t.1 = true ∧ isHexChar t.2 = true) :
    byteGroup (renderToks toks) = some (toks, []) := by
  cases toks with
  | nil => exact absurd rfl hne
  | cons t ts =>
    have h1 := hth t (by simp)
    have h2 : take2Hex (renderToks (t :: ts)) = some ((t.1, t.2), renderSep ts) := by
      rw [renderToks]
      simp [take2Hex, h1.1, h1.2]
    rw [byteGroup, h2]
    simp only [Option.map_some']
    have hlen : ts.length ≤ (renderToks (t :: ts)).length := by
      rw [renderToks]
      simp [renderSep_length]
      omega
    rw [byteLoop_renderSep ts (fun x hx => hth x (by simp [hx]))
      (renderToks (t :: ts)).length [(t.1, t.2)] hlen]
    simp

theorem matchCountAndBytes_mk (dl : List Char) (toks : List (Char × Char))
    (hdl : dl ≠ []) (hdld : ∀ c ∈ dl, isDigitChar c = true) (hne : toks ≠ [])
    (hth : ∀ t ∈ toks, isHexChar t.1 = true ∧ isHexChar t.2 = true) :
    matchCountAndBytes (dl ++ ' ' :: renderToks toks) = some (dl, toks) := by
  obtain ⟨t, ts, rfl⟩ : ∃ t ts, toks = t :: ts := by
    cases toks with
    | nil => exact absurd rfl hne
    | cons t ts => exact ⟨t, ts, rfl⟩
  have h1 : takeWhile1 isDigitChar (dl ++ ' ' :: renderToks (t :: ts))
      = some (dl, ' ' :: renderToks (t :: ts)) :=
    takeWhile1_exact _ dl ' ' _ hdld hdl (by decide)
  have ht1 := (hth t (by simp)).1
  have h2 : takeWhile1 isSpaceChar (' ' :: renderToks (t :: ts))
      = some ([' '], renderToks (t :: ts)) := by
    have := takeWhile1_exact isSpaceChar [' '] t.1 (t.2 :: renderSep ts)
      (by intro x hx; rw [List.mem_singleton.mp hx]; decide) (by simp)
      (hex_not_space _ ht1)
    rw [renderToks]
    simpa using this
  have h3 := byteGroup_renderToks (t :: ts) (by simp) hth
  simp only [matchCountAndBytes, Option.bind_eq_bind, h1, Option.some_bind, h2, h3]
  rfl

theorem matchIdHead_mk (idc : List Char) (tail : List Char) (hid : idc ≠ [])
    (hidh : ∀ c ∈ idc, isHexChar c = true) :
    matchIdHead ('I' :: 'D' :: ':' :: ' ' :: '0' :: 'x' ::
        (idc ++ ',' :: ' ' :: 'D' :: 'a' :: 't' :: 'a' :: ':' :: ' ' :: tail))
      = some (idc, 'D' :: 'a' :: 't' :: 'a' :: ':' :: ' ' :: tail) := by
  have hID : str "ID:" = ['I', 'D', ':'] := rfl
  have h0x : str "0x" = ['0', 'x'] := rfl
  have hcm : str "," = [','] := rfl
  have hm1 : matchLit (str "ID:")
      ('I' :: 'D' :: ':' :: ' ' :: '0' :: 'x' ::
        (idc ++ ',' :: ' ' :: 'D' :: 'a' :: 't' :: 'a' :: ':' :: ' ' :: tail))
      = some (' ' :: '0' :: 'x' ::
        (idc ++ ',' :: ' ' :: 'D' :: 'a' :: 't' :: 'a' :: ':' :: ' ' :: tail)) := by
    rw [hID]
    simp [matchLit]
  have hd1 : List.dropWhile isSpaceChar (' ' :: '0' :: 'x' ::
      (idc ++ ',' :: ' ' :: 'D' :: 'a' :: 't' :: 'a' :: ':' :: ' ' :: tail))
      = '0' :: 'x' :: (idc ++ ',' :: ' ' :: 'D' :: 'a' :: 't' :: 'a' :: ':' :: ' ' :: tail) := by
    have hs : isSpaceChar ' ' = true := by decide
    have h0 : isSpaceChar '0' = false := by decide
    simp [List.dropWhile_cons, hs, h0]
  have hm2 : matchLit (str "0x") ('0' :: 'x' ::
      (idc ++ ',' :: ' ' :: 'D' :: 'a' :: 't' :: 'a' :: ':' :: ' ' :: tail))
      = some (idc ++ ',' :: ' ' :: 'D' :: 'a' :: 't' :: 'a' :: ':' :: ' ' :: tail) := by
    rw [h0x]
    simp [matchLit]
  have hx1 : takeWhile1 isHexChar
      (idc ++ ',' :: ' ' :: 'D' :: 'a' :: 't' :: 'a' :: ':' :: ' ' :: tail)
      = some (idc, ',' :: ' ' :: 'D' :: 'a' :: 't' :: 'a' :: ':' :: ' ' :: tail) :=
    takeWhile1_exact _ idc ',' _ hidh hid (by decide)
  have hd2 : List.dropWhile isSpaceChar
      (',' :: ' ' :: 'D' :: 'a' :: 't' :: 'a' :: ':' :: ' ' :: tail)
      = ',' :: ' ' :: 'D' :: 'a' :: 't' :: 'a' :: ':' :: ' ' :: tail := by
    have hc : isSpaceChar ',' = false := by decide
    simp [List.dropWhile_cons, hc]
  have hm3 : matchLit (str ",")
      (',' :: ' ' :: 'D' :: 'a' :: 't' :: 'a' :: ':' :: ' ' :: tail)
      = some (' ' :: 'D' :: 'a' :: 't' :: 'a' :: ':' :: ' ' :: tail) := by
    rw [hcm]
    simp [matchLit]
  have hd3 : List.dropWhile isSpaceChar
      (' ' :: 'D' :: 'a' :: 't' :: 'a' :: ':' :: ' ' :: tail)
      = 'D' :: 'a' :: 't' :: 'a' :: ':' :: ' ' :: tail := by
    have hs : isSpaceChar ' ' = true := by decide
    have hD : isSpaceChar 'D' = false := by decide
    simp [List.dropWhile_cons, hs, hD]
  simp only [matchIdHead, Option.bind_eq_bind, hm1, Option.some_bind, hd1, hm2,
    hx1, hd2, hm3, hd3]
  rfl

theorem serialMatchAt_mk (idc dl : List Char) (toks : List (Char × Char))
    (hid : idc ≠ []) (hidh : ∀ c ∈ idc, isHexChar c = true)
    (hdl : dl ≠ []) (hdld : ∀ c ∈ dl, isDigitChar c = true)
    (hne : toks ≠ []) (hth : ∀ t ∈ toks, isHexChar t.1 = true ∧ isHexChar t.2 = true) :
    serialMatchAt ('I' :: 'D' :: ':' :: ' ' :: '0' :: 'x' ::
        (idc ++ ',' :: ' ' :: 'D' :: 'a' :: 't' :: 'a' :: ':' :: ' ' ::
          (dl ++ ' ' :: renderToks toks)))
      = some (idc, dl, toks) := by
  obtain ⟨d, dl', rfl⟩ : ∃ d dl', dl = d :: dl' := by
    cases dl with
    | nil => exact absurd rfl hdl
    | cons d dl' => exact ⟨d, dl', rfl⟩
  have hhead := matchIdHead_mk idc ((d :: dl') ++ ' ' :: renderToks toks) hid hidh
  have hDLC : matchLit (str "DLC")
      ('D' :: 'a' :: 't' :: 'a' :: ':' :: ' ' :: ((d :: dl') ++ ' ' :: renderToks toks))
      = none := by
    rw [show str "DLC" = ['D', 'L', 'C'] from rfl, matchLit_cons,
      matchLit_cons_ne (by decide)]
  have hData : matchLit (str "Data")
      ('D' :: 'a' :: 't' :: 'a' :: ':' :: ' ' :: ((d :: dl') ++ ' ' :: renderToks toks))
      = some (':' :: ' ' :: ((d :: dl') ++ ' ' :: renderToks toks)) := by
    rw [show str "Data" = ['D', 'a', 't', 'a'] from rfl]
    simp [matchLit]
  have hColon : matchLit (str ":")
      (':' :: ' ' :: ((d :: dl') ++ ' ' :: renderToks toks))
      = some (' ' :: ((d :: dl') ++ ' ' :: renderToks toks)) := by
    rw [show str ":" = [':'] from rfl]
    simp [matchLit]
  have hdrop : List.dropWhile isSpaceChar
      (' ' :: ((d :: dl') ++ ' ' :: renderToks toks))
      = (d :: dl') ++ ' ' :: renderToks toks := by
    have hs : isSpaceChar ' ' = true := by decide
    have hd : isSpaceChar d = false := digit_not_space d (hdld d (by simp))
    simp [List.dropWhile_cons, hs, hd]
  have hcnt := matchCountAndBytes_mk (d :: dl') toks hdl hdld hne hth
  simp only [serialMatchAt, Option.bind_eq_bind, hhead, Option.some_bind, hDLC,
    hData, hColon, hdrop, hcnt]
  rfl

theorem frameMatchAt_mk (idc dl : List Char) (toks : List (Char × Char))
    (hid : idc ≠ []) (hidh : ∀ c ∈ idc, isHexChar c = true)
    (hdl : dl ≠ []) (hdld : ∀ c ∈ dl, isDigitChar c = true)
    (hne : toks ≠ []) (hth : ∀ t ∈ toks, isHexChar t.1 = true ∧ isHexChar t.2 = true) :
    frameMatchAt ('I' :: 'D' :: ':' :: ' ' :: '0' :: 'x' ::
        (idc ++ ',' :: ' ' :: 'D' :: 'a' :: 't' :: 'a' :: ':' :: ' ' ::
          (dl ++ ' ' :: renderToks toks)))
      = some (idc, dl, toks) := by
  obtain ⟨d, dl', rfl⟩ : ∃ d dl', dl = d :: dl' := by
    cases dl with
    | nil => exact absurd rfl hdl
    | cons d dl' => exact ⟨d, dl', rfl⟩
  have hhead := matchIdHead_mk idc ((d :: dl') ++ ' ' :: renderToks toks) hid hidh
  have hData : matchLit (str "Data:")
      ('D' :: 'a' :: 't' :: 'a' :: ':' :: ' ' :: ((d :: dl') ++ ' ' :: renderToks toks))
      = some (' ' :: ((d :: dl') ++ ' ' :: renderToks toks)) := by
    rw [show str "Data:" = ['D', 'a', 't', 'a', ':'] from rfl]
    simp [matchLit]
  have hdrop : List.dropWhile isSpaceChar
      (' ' :: ((d :: dl') ++ ' ' :: renderToks toks))
      = (d :: dl') ++ ' ' :: renderToks toks := by
    have hs : isSpaceChar ' ' = true := by decide
    have hd : isSpaceChar d = false := digit_not_space d (hdld d (by simp))
    simp [List.dropWhile_cons, hs, hd]
  have hDLC : matchLit (str "DLC:") ((d :: dl') ++ ' ' :: renderToks toks) = none := by
    rw [show str "DLC:" = ['D', 'L', 'C', ':'] from rfl]
    show matchLit ('D' :: ['L', 'C', ':']) (d :: (dl' ++ ' ' :: renderToks toks)) = none
    exact matchLit_cons_ne (fun h => digit_ne_D d (hdld d (by simp)) h.symm) _ _
  have hcnt := matchCountAndBytes_mk (d :: dl') toks hdl hdld hne hth
  simp only [frameMatchAt, Option.bind_eq_bind, hhead, Option.some_bind, hData,
    hdrop, hDLC, hcnt]
  rfl

theorem regexSearch_head {α : Type} (m : List Char → Option α) (c : Char)
    (t : List Char) (r : α) (h : m (c :: t) = some r) :
    regexSearch m (c :: t) = some r := by
  simp [regexSearch, h]

/-- C1 counterexample: the line `ID: 0x123, Data: 0` declares length `0`
with exactly zero byte tokens, yet `parse_serial_line` rejects it (both
patterns require at least one byte token), where the claim promises a frame
with an empty payload; and on `ID: 0x1, Data: 5 AA`, whose declared length
exceeds the single available token, canrx.py `parse_line` returns a frame
instead of rejecting (only canrx_tool.py `parse_serial_line` rejects it). -/
theorem line_parser_claim_counterexample :
    parse_serial_line (str "ID: 0x123, Data: 0") = none ∧
    parse_line (str "ID: 0x123, Data: 0") = none ∧
    parse_line (str "ID: 0x1, Data: 5 AA") = some (1, 5, [170]) ∧
    parse_serial_line (str "ID: 0x1, Data: 5 AA") = none := by
  refine ⟨by decide, by decide, by decide, by decide⟩

/-- C1 (amended): on a canonical adapter line with a non-empty hexadecimal
identifier, a declared length `L` with `1 ≤ L ≤ 8` and space-separated
two-digit hexadecimal byte tokens, canrx_tool.py `parse_serial_line`
returns the frame (with exactly as many payload bytes as tokens) precisely
when the declared length equals the token count and rejects the line
otherwise, while canrx.py `parse_line` returns the frame without checking
the count.  Lines declaring `L = 0` with no byte tokens are rejected by
both (the counterexample); the patterns demand at least one token. -/
theorem line_parser_spec (idc : List Char) (toks : List (Char × Char)) (L : ℕ)
    (hid : idc ≠ []) (hidh : ∀ c ∈ idc, isHexChar c = true)
    (hne : toks ≠ []) (hth : ∀ t ∈ toks, isHexChar t.1 = true ∧ isHexChar t.2 = true)
    (hL1 : 1 ≤ L) (hL8 : L ≤ 8) :
    parse_serial_line (mkLine idc L toks) =
      (if L = toks.length then some (hexToNat idc, L, toks.map tokVal) else none) ∧
    parse_line (mkLine idc L toks) = some (hexToNat idc, L, toks.map tokVal) := by
  have hsm := serialMatchAt_mk idc (natDecStr L) toks hid hidh (natDecStr_ne_nil L)
    (natDecStr_digits L) hne hth
  have hfm := frameMatchAt_mk idc (natDecStr L) toks hid hidh (natDecStr_ne_nil L)
    (natDecStr_digits L) hne hth
  have hrs : regexSearch serialMatchAt (mkLine idc L toks)
      = some (idc, natDecStr L, toks) := by
    rw [mkLine]
    exact regexSearch_head _ _ _ _ hsm
  have hrf : regexSearch frameMatchAt (mkLine idc L toks)
      = some (idc, natDecStr L, toks) := by
    rw [mkLine]
    exact regexSearch_head _ _ _ _ hfm
  constructor
  · rw [parse_serial_line, hrs]
    show (if (toks.map tokVal).length ≠ decToNat (natDecStr L) then none
          else some (hexToNat idc, decToNat (natDecStr L), toks.map tokVal)) =
        if L = toks.length then some (hexToNat idc, L, toks.map tokVal) else none
    by_cases heq : L = toks.length
    · have hcond : ¬(toks.map tokVal).length ≠ decToNat (natDecStr L) := by
        rw [List.length_map, decToNat_natDecStr]
        omega
      rw [if_neg hcond, if_pos heq, decToNat_natDecStr]
    · have hcond : (toks.map tokVal).length ≠ decToNat (natDecStr L) := by
        rw [List.length_map, decToNat_natDecStr]
        omega
      rw [if_pos hcond, if_neg heq]
  · rw [parse_line, hrf]
    simp [decToNat_natDecStr]

/-- C1 witness: the identifier `631`, declared length `2` and tokens
`AA BB` — both with the matching count (parsed) and, via the theorem's
conditional, the mismatching declared length `3` (rejected by
`parse_serial_line`, accepted by `parse_line`). -/
theorem line_parser_spec_witness :
    ((['6', '3', '1'] : List Char) ≠ [] ∧
      (∀ c ∈ (['6', '3', '1'] : List Char), isHexChar c = true) ∧
      ([('A', 'A'), ('B', 'B')] : List (Char × Char)) ≠ [] ∧
      (∀ t ∈ ([('A', 'A'), ('B', 'B')] : List (Char × Char)),
        isHexChar t.1 = true ∧ isHexChar t.2 = true) ∧
      1 ≤ 2 ∧ 2 ≤ 8) ∧
    (parse_serial_line (mkLine ['6', '3', '1'] 2 [('A', 'A'), ('B', 'B')]) =
        (if 2 = [('A', 'A'), ('B', 'B')].length then
          some (hexToNat ['6', '3', '1'], 2, [('A', 'A'), ('B', 'B')].map tokVal)
        else none) ∧
      parse_line (mkLine ['6', '3', '1'] 2 [('A', 'A'), ('B', 'B')]) =
        some (hexToNat ['6', '3', '1'], 2, [('A', 'A'), ('B', 'B')].map tokVal)) :=
  ⟨⟨by decide, by decide, by decide, by decide, by decide, by decide⟩,
    line_parser_spec ['6', '3', '1'] [('A', 'A'), ('B', 'B')] 2
      (by decide) (by decide) (by decide) (by decide) (by decide) (by decide)⟩
